import Mathlib

/-!
Verification of the interview-orchestration pipeline in `app.py`.

The development shallowly embeds the pure data-handling logic of the script:
Python strings are `List Char`, JSON values are the inductive `Json` below,
`json.loads` / `json.dumps` are modelled by an executable parser and printer,
and each Streamlit button handler that mutates `st.session_state` becomes an
explicit state-transition function on `AppState`.  Fallible Python code
(exceptions caught by the surrounding `try`) is modelled with `Option` /
`Except`.
-/

namespace App

/-! ## Python string primitives (`str.strip`, `str.find`, `str.rfind`, slicing) -/

/-- The ASCII whitespace characters stripped by Python's `str.strip()`. -/
def isPyWs (c : Char) : Bool :=
  c = ' ' || c = '\t' || c = '\n' || c = '\r' || c = '\x0b' || c = '\x0c'

/-- `s.strip()`: remove leading and trailing whitespace. -/
def pyStrip (s : List Char) : List Char :=
  ((s.dropWhile isPyWs).reverse.dropWhile isPyWs).reverse

/-- `s.strip(ch)`: remove all leading and trailing occurrences of `ch`. -/
def pyStripChar (ch : Char) (s : List Char) : List Char :=
  ((s.dropWhile (· = ch)).reverse.dropWhile (· = ch)).reverse

/-- `s.startswith(p)`. -/
def pyStartsWith (p s : List Char) : Bool :=
  decide (p <+: s)

/-- `s.find(c)`: index of the first occurrence of `c`, `none` for Python's `-1`. -/
def pyFind (c : Char) : List Char → Option Nat
  | [] => none
  | x :: r => if x = c then some 0 else (pyFind c r).map (· + 1)

/-- `s.rfind(c)`: index of the last occurrence of `c`, `none` for Python's `-1`. -/
def pyRfind (c : Char) (s : List Char) : Option Nat :=
  (pyFind c s.reverse).map (fun i => s.length - 1 - i)

/-- Python slice `s[i:j]`. -/
def pySlice (s : List Char) (i j : Nat) : List Char :=
  (s.drop i).take (j - i)

/-- Lexicographic `≤` on strings, Python's `<=` for `str` (by code points). -/
def lexLe : List Char → List Char → Bool
  | [], _ => true
  | _ :: _, [] => false
  | a :: as, b :: bs =>
    if a = b then lexLe as bs else decide (a.toNat < b.toNat)

/-! ## JSON values

`Json` models the Python values produced by `json.loads`: `None`, `bool`,
`int`, `str`, `list`, `dict` (an insertion-ordered association list, as
Python dicts are).  JSON numbers are modelled as integers; the candidate
schema only uses strings, integers, arrays and objects. -/

inductive Json where
  | null
  | bool (b : Bool)
  | int (n : Int)
  | str (s : List Char)
  | arr (items : List Json)
  | obj (fields : List (List Char × Json))

mutual

def decEqJson : (a b : Json) → Decidable (a = b)
  | .null, .null => isTrue rfl
  | .bool x, .bool y =>
    match decEq x y with
    | isTrue h => isTrue (by rw [h])
    | isFalse h => isFalse (by intro hh; cases hh; exact h rfl)
  | .int x, .int y =>
    match decEq x y with
    | isTrue h => isTrue (by rw [h])
    | isFalse h => isFalse (by intro hh; cases hh; exact h rfl)
  | .str x, .str y =>
    match decEq x y with
    | isTrue h => isTrue (by rw [h])
    | isFalse h => isFalse (by intro hh; cases hh; exact h rfl)
  | .arr x, .arr y =>
    match decEqJsonList x y with
    | isTrue h => isTrue (by rw [h])
    | isFalse h => isFalse (by intro hh; cases hh; exact h rfl)
  | .obj x, .obj y =>
    match decEqJsonFields x y with
    | isTrue h => isTrue (by rw [h])
    | isFalse h => isFalse (by intro hh; cases hh; exact h rfl)
  | .null, .bool _ | .null, .int _ | .null, .str _ | .null, .arr _ | .null, .obj _ => isFalse nofun
  | .bool _, .null | .bool _, .int _ | .bool _, .str _ | .bool _, .arr _ | .bool _, .obj _ => isFalse nofun
  | .int _, .null | .int _, .bool _ | .int _, .str _ | .int _, .arr _ | .int _, .obj _ => isFalse nofun
  | .str _, .null | .str _, .bool _ | .str _, .int _ | .str _, .arr _ | .str _, .obj _ => isFalse nofun
  | .arr _, .null | .arr _, .bool _ | .arr _, .int _ | .arr _, .str _ | .arr _, .obj _ => isFalse nofun
  | .obj _, .null | .obj _, .bool _ | .obj _, .int _ | .obj _, .str _ | .obj _, .arr _ => isFalse nofun

def decEqJsonList : (a b : List Json) → Decidable (a = b)
  | [], [] => isTrue rfl
  | [], _ :: _ => isFalse nofun
  | _ :: _, [] => isFalse nofun
  | x :: xs, y :: ys =>
    match decEqJson x y, decEqJsonList xs ys with
    | isTrue h1, isTrue h2 => isTrue (by rw [h1, h2])
    | isFalse h1, _ => isFalse (by intro hh; cases hh; exact h1 rfl)
    | _, isFalse h2 => isFalse (by intro hh; cases hh; exact h2 rfl)

def decEqJsonFields : (a b : List (List Char × Json)) → Decidable (a = b)
  | [], [] => isTrue rfl
  | [], _ :: _ => isFalse nofun
  | _ :: _, [] => isFalse nofun
  | (k1, v1) :: xs, (k2, v2) :: ys =>
    match decEq k1 k2, decEqJson v1 v2, decEqJsonFields xs ys with
    | isTrue h0, isTrue h1, isTrue h2 => isTrue (by rw [h0, h1, h2])
    | isFalse h0, _, _ => isFalse (by intro hh; cases hh; exact h0 rfl)
    | _, isFalse h1, _ => isFalse (by intro hh; cases hh; exact h1 rfl)
    | _, _, isFalse h2 => isFalse (by intro hh; cases hh; exact h2 rfl)

end

instance : DecidableEq Json := decEqJson

/-- Python truthiness of a parsed JSON value: `None`, `False`, `0`, `""`,
`[]` and `{}` are falsy, everything else truthy. -/
def truthy : Json → Bool
  | .null => false
  | .bool b => b
  | .int n => decide (n ≠ 0)
  | .str s => decide (s ≠ [])
  | .arr l => decide (l ≠ [])
  | .obj f => decide (f ≠ [])

/-- `d.get(k)` on a dict: value of the first binding of `k`, if any. -/
def pyLookup (k : List Char) : List (List Char × Json) → Option Json
  | [] => none
  | (k', v) :: r => if k' = k then some v else pyLookup k r

/-- `d.get(k, default)`. -/
def pyGetD (fields : List (List Char × Json)) (k : List Char) (dflt : Json) : Json :=
  (pyLookup k fields).getD dflt

/-- `d[k] = v` on a dict: replace the value at `k` in place if the key is
present, otherwise append the binding. -/
def pySetKey (k : List Char) (v : Json) : List (List Char × Json) → List (List Char × Json)
  | [] => [(k, v)]
  | (k', v') :: r => if k' = k then (k, v) :: r else (k', v') :: pySetKey k v r

/-! ## Serialization: `json.dumps`

Decimal printing of naturals, fuelled so that it reduces in the kernel. -/

def natToCharsAux : Nat → Nat → List Char
  | 0, _ => []
  | fuel + 1, n =>
    if n < 10 then [Nat.digitChar n]
    else natToCharsAux fuel (n / 10) ++ [Nat.digitChar (n % 10)]

/-- Decimal digits of a natural number, most significant first. -/
def natToChars (n : Nat) : List Char :=
  natToCharsAux (n + 1) n

/-- Python `str` of an integer. -/
def intToChars (n : Int) : List Char :=
  if n < 0 then '-' :: natToChars n.natAbs else natToChars n.natAbs

/-- The escape `json.dumps` (with `ensure_ascii=False`) applies to one
character inside a string literal: `\` and `"` get a backslash, the five
named control characters use their short escapes, any other control
character becomes `\u00XX`, everything else is emitted verbatim. -/
def escapeChar : Char → List Char
  | '\\' => ['\\', '\\']
  | '\t' => ['\\', 't']
  | '"' => ['\\', '"']
  | '\r' => ['\\', 'r']
  | '\n' => ['\\', 'n']
  | '\x0c' => ['\\', 'f']
  | '\x08' => ['\\', 'b']
  | c =>
    if c.toNat < 32 then
      ['\\', 'u', '0', '0', Nat.digitChar (c.toNat / 16), Nat.digitChar (c.toNat % 16)]
    else [c]

def escapeStr : List Char → List Char
  | [] => []
  | c :: r => escapeChar c ++ escapeStr r

/-- A JSON string literal: `"…"` with escapes. -/
def dumpStr (s : List Char) : List Char :=
  '"' :: escapeStr s ++ ['"']

mutual

/-- `json.dumps(v)` with the default separators `", "` and `": "`. -/
def dumps : Json → List Char
  | .null => "null".toList
  | .bool true => "true".toList
  | .bool false => "false".toList
  | .int n => intToChars n
  | .str s => dumpStr s
  | .arr l => '[' :: dumpsItems l ++ [']']
  | .obj f => '{' :: dumpsFields f ++ ['}']

def dumpsItems : List Json → List Char
  | [] => []
  | x :: r => dumps x ++ dumpsItemsTail r

def dumpsItemsTail : List Json → List Char
  | [] => []
  | x :: r => ',' :: ' ' :: (dumps x ++ dumpsItemsTail r)

def dumpsFields : List (List Char × Json) → List Char
  | [] => []
  | (k, v) :: r => dumpStr k ++ ':' :: ' ' :: (dumps v ++ dumpsFieldsTail r)

def dumpsFieldsTail : List (List Char × Json) → List Char
  | [] => []
  | (k, v) :: r => ',' :: ' ' :: (dumpStr k ++ ':' :: ' ' :: (dumps v ++ dumpsFieldsTail r))

end

/-- `lvl * 2` spaces: the prefix `json.dumps(..., indent=2)` puts before an
element nested at depth `lvl`. -/
def indSpaces (lvl : Nat) : List Char :=
  List.replicate (lvl * 2) ' '

mutual

/-- `json.dumps(v, indent=2)`: `lvl` is the current nesting depth. -/
def dumpsInd : Nat → Json → List Char
  | _, .null => "null".toList
  | _, .bool true => "true".toList
  | _, .bool false => "false".toList
  | _, .int n => intToChars n
  | _, .str s => dumpStr s
  | _, .arr [] => "[]".toList
  | lvl, .arr (x :: r) =>
    '[' :: '\n' :: indSpaces (lvl + 1) ++ dumpsInd (lvl + 1) x
      ++ dumpsIndItemsTail (lvl + 1) r ++ '\n' :: indSpaces lvl ++ [']']
  | _, .obj [] => "\x7b\x7d".toList
  | lvl, .obj ((k, v) :: r) =>
    '{' :: '\n' :: indSpaces (lvl + 1) ++ dumpStr k ++ ':' :: ' ' :: dumpsInd (lvl + 1) v
      ++ dumpsIndFieldsTail (lvl + 1) r ++ '\n' :: indSpaces lvl ++ ['}']

def dumpsIndItemsTail : Nat → List Json → List Char
  | _, [] => []
  | lvl, x :: r =>
    ',' :: '\n' :: indSpaces lvl ++ dumpsInd lvl x ++ dumpsIndItemsTail lvl r

def dumpsIndFieldsTail : Nat → List (List Char × Json) → List Char
  | _, [] => []
  | lvl, (k, v) :: r =>
    ',' :: '\n' :: indSpaces lvl ++ dumpStr k ++ ':' :: ' ' :: dumpsInd lvl v
      ++ dumpsIndFieldsTail lvl r

end

/-! ## Well-formedness and size -/

/-- Keys of an association list are pairwise distinct. -/
def keysDistinct : List (List Char × Json) → Bool
  | [] => true
  | (k, _) :: r => !(r.any (fun kv => kv.1 = k)) && keysDistinct r

mutual

/-- A `Json` value is the image of a Python value: every object has
pairwise-distinct keys (Python dicts cannot hold duplicates). -/
def jwf : Json → Bool
  | .null => true
  | .bool _ => true
  | .int _ => true
  | .str _ => true
  | .arr l => jwfItems l
  | .obj f => keysDistinct f && jwfFields f

def jwfItems : List Json → Bool
  | [] => true
  | x :: r => jwf x && jwfItems r

def jwfFields : List (List Char × Json) → Bool
  | [] => true
  | (_, v) :: r => jwf v && jwfFields r

end

/-! ## Parsing: `json.loads`

A fuelled recursive-descent parser with the same acceptance behaviour as
Python's decoder on the inputs the claims range over: whitespace between
tokens, the three literals, integers, strings with the standard escapes,
arrays and objects.  Objects are built by successive dict insertion
(`pySetKey`), so a duplicated key keeps the last value, as in Python. -/

/-- The whitespace characters the JSON decoder skips between tokens. -/
def isJsonWs (c : Char) : Bool :=
  c = ' ' || c = '\t' || c = '\n' || c = '\r'

def skipWs (s : List Char) : List Char :=
  s.dropWhile isJsonWs

def isDigitC (c : Char) : Bool :=
  48 ≤ c.toNat && c.toNat ≤ 57

def digitVal (c : Char) : Nat :=
  c.toNat - 48

/-- Numeric value of a run of decimal digits. -/
def digitsVal (ds : List Char) : Nat :=
  ds.foldl (fun a c => 10 * a + digitVal c) 0

def hexVal (c : Char) : Option Nat :=
  if 48 ≤ c.toNat && c.toNat ≤ 57 then some (c.toNat - 48)
  else if 97 ≤ c.toNat && c.toNat ≤ 102 then some (c.toNat - 87)
  else if 65 ≤ c.toNat && c.toNat ≤ 70 then some (c.toNat - 55)
  else none

/-- Parse the body of a string literal (the opening `"` already consumed),
returning the decoded characters and the input after the closing `"`.
Raw control characters are rejected, as in the decoder's strict mode. -/
def parseStrBody : List Char → Option (List Char × List Char)
  | [] => none
  | '"' :: r => some ([], r)
  | '\\' :: '"' :: r => (parseStrBody r).map (fun p => ('"' :: p.1, p.2))
  | '\\' :: '\\' :: r => (parseStrBody r).map (fun p => ('\\' :: p.1, p.2))
  | '\\' :: '/' :: r => (parseStrBody r).map (fun p => ('/' :: p.1, p.2))
  | '\\' :: 'n' :: r => (parseStrBody r).map (fun p => ('\n' :: p.1, p.2))
  | '\\' :: 't' :: r => (parseStrBody r).map (fun p => ('\t' :: p.1, p.2))
  | '\\' :: 'r' :: r => (parseStrBody r).map (fun p => ('\r' :: p.1, p.2))
  | '\\' :: 'b' :: r => (parseStrBody r).map (fun p => ('\x08' :: p.1, p.2))
  | '\\' :: 'f' :: r => (parseStrBody r).map (fun p => ('\x0c' :: p.1, p.2))
  | '\\' :: 'u' :: h1 :: h2 :: h3 :: h4 :: r =>
    match hexVal h1, hexVal h2, hexVal h3, hexVal h4 with
    | some a, some b, some c', some d =>
      (parseStrBody r).map
        (fun p => (Char.ofNat (((a * 16 + b) * 16 + c') * 16 + d) :: p.1, p.2))
    | _, _, _, _ => none
  | '\\' :: _ => none
  | c :: r =>
    if c.toNat < 32 then none
    else (parseStrBody r).map (fun p => (c :: p.1, p.2))

mutual

/-- Parse one JSON token starting at the given (already whitespace-stripped)
input; returns the value and the unconsumed input. -/
def parseTok : Nat → List Char → Option (Json × List Char)
  | 0, _ => none
  | fuel + 1, '{' :: r =>
    match skipWs r with
    | '}' :: r2 => some (.obj [], r2)
    | s1 => parseObjRest fuel s1 []
  | fuel + 1, '[' :: r =>
    match skipWs r with
    | ']' :: r2 => some (.arr [], r2)
    | _ => parseArrRest fuel r []
  | _ + 1, '"' :: r => (parseStrBody r).map (fun p => (.str p.1, p.2))
  | _ + 1, 't' :: 'r' :: 'u' :: 'e' :: r => some (.bool true, r)
  | _ + 1, 'f' :: 'a' :: 'l' :: 's' :: 'e' :: r => some (.bool false, r)
  | _ + 1, 'n' :: 'u' :: 'l' :: 'l' :: r => some (.null, r)
  | _ + 1, '-' :: r =>
    match r.span isDigitC with
    | ([], _) => none
    | (ds, rest) => some (.int (-(digitsVal ds : Int)), rest)
  | _ + 1, s =>
    match s.span isDigitC with
    | ([], _) => none
    | (ds, rest) => some (.int (digitsVal ds), rest)

/-- Parse the elements of a non-empty array (the `[` already consumed). -/
def parseArrRest : Nat → List Char → List Json → Option (Json × List Char)
  | 0, _, _ => none
  | fuel + 1, s, acc =>
    match parseTok fuel (skipWs s) with
    | none => none
    | some (v, r) =>
      match skipWs r with
      | ']' :: r2 => some (.arr (acc ++ [v]), r2)
      | ',' :: r2 => parseArrRest fuel r2 (acc ++ [v])
      | _ => none

/-- Parse the members of a non-empty object (the `{` and any following
whitespace already consumed). -/
def parseObjRest : Nat → List Char → List (List Char × Json) →
    Option (Json × List Char)
  | 0, _, _ => none
  | fuel + 1, '"' :: r, acc =>
    match parseStrBody r with
    | none => none
    | some (k, r2) =>
      match skipWs r2 with
      | ':' :: r3 =>
        match parseTok fuel (skipWs r3) with
        | none => none
        | some (v, r4) =>
          match skipWs r4 with
          | '}' :: r5 => some (.obj (pySetKey k v acc), r5)
          | ',' :: r5 => parseObjRest fuel (skipWs r5) (pySetKey k v acc)
          | _ => none
      | _ => none
  | _ + 1, _, _ => none

end

/-- Parse one JSON value after skipping leading whitespace. -/
def parseVal (fuel : Nat) (s : List Char) : Option (Json × List Char) :=
  parseTok fuel (skipWs s)

/-- `json.loads(s)`: parse one value and require only whitespace after it. -/
def loads (s : List Char) : Option Json :=
  match parseVal (2 * s.length + 2) s with
  | none => none
  | some (v, rest) => if skipWs rest = [] then some v else none

theorem loads_null_smoke : loads "null".toList = some .null := by decide

theorem loads_dumps_smoke :
    loads (dumps (.obj [("a".toList, .int 1), ("b".toList, .arr [.str "x".toList, .null])]))
    = some (.obj [("a".toList, .int 1), ("b".toList, .arr [.str "x".toList, .null])]) := by decide

theorem loads_garbage_smoke : loads "nul".toList = none := by decide

mutual

/-- Fuel measure for the JSON parser. -/
def jsize : Json → Nat
  | .null => 1
  | .bool _ => 1
  | .int _ => 1
  | .str _ => 1
  | .arr l => 1 + jsizeItems l
  | .obj f => 1 + jsizeFields f

def jsizeItems : List Json → Nat
  | [] => 0
  | x :: r => jsize x + 1 + jsizeItems r

def jsizeFields : List (List Char × Json) → Nat
  | [] => 0
  | (_, v) :: r => jsize v + 1 + jsizeFields r

end

/-! ## Round-trip lemmas: digits -/

/-- The input after a parsed token must not begin with a further digit
(otherwise number parsing would swallow it). -/
def NoDigitHead (r : List Char) : Prop :=
  ∀ c, r.head? = some c → isDigitC c = false

theorem noDigitHead_nil : NoDigitHead [] := by
  intro c h
  simp at h

theorem noDigitHead_cons {c : Char} {r : List Char} (h : isDigitC c = false) :
    NoDigitHead (c :: r) := by
  intro d hd
  simp at hd
  simpa [hd] using h

theorem takeWhile_all_append {p : Char → Bool} {l r : List Char}
    (hl : ∀ c ∈ l, p c = true) (hr : ∀ c, r.head? = some c → p c = false) :
    (l ++ r).takeWhile p = l ∧ (l ++ r).dropWhile p = r := by
  induction l with
  | nil =>
    simp only [List.nil_append]
    cases r with
    | nil => simp
    | cons c t => simp [List.takeWhile, List.dropWhile, hr c rfl]
  | cons c t ih =>
    have hc : p c = true := hl c (by simp)
    have iht := ih (fun d hd => hl d (by simp [hd]))
    simp [List.takeWhile, List.dropWhile, hc, iht.1, iht.2]

theorem span_all_append {p : Char → Bool} {l r : List Char}
    (hl : ∀ c ∈ l, p c = true) (hr : ∀ c, r.head? = some c → p c = false) :
    (l ++ r).span p = (l, r) := by
  rw [List.span_eq_take_drop]
  rw [(takeWhile_all_append hl hr).1, (takeWhile_all_append hl hr).2]

theorem digitChar_isDigit {d : Nat} (h : d < 10) :
    isDigitC (Nat.digitChar d) = true := by
  interval_cases d <;> decide

theorem digitVal_digitChar {d : Nat} (h : d < 10) :
    digitVal (Nat.digitChar d) = d := by
  interval_cases d <;> decide

theorem hexVal_digitChar {d : Nat} (h : d < 16) :
    hexVal (Nat.digitChar d) = some d := by
  interval_cases d <;> decide

theorem natToCharsAux_fuel (n : Nat) : ∀ f₁ f₂, n < f₁ → n < f₂ →
    natToCharsAux f₁ n = natToCharsAux f₂ n := by
  induction n using Nat.strong_induction_on with
  | _ n ih =>
    intro f₁ f₂ h₁ h₂
    match f₁, f₂ with
    | g₁ + 1, g₂ + 1 =>
      simp only [natToCharsAux]
      by_cases hn : n < 10
      · simp [hn]
      · have hlt : n / 10 < n := Nat.div_lt_self (by omega) (by omega)
        simp only [hn, if_false]
        rw [ih (n / 10) hlt g₁ (g₂ + 1) (by omega) (by omega)]
        rw [ih (n / 10) hlt (g₂ + 1) g₂ (by omega) (by omega)]

/-- One-step unfolding of the decimal printer. -/
theorem natToChars_eq (n : Nat) : natToChars n =
    if n < 10 then [Nat.digitChar n]
    else natToChars (n / 10) ++ [Nat.digitChar (n % 10)] := by
  by_cases hn : n < 10
  · simp [natToChars, natToCharsAux, hn]
  · have hlt : n / 10 < n := Nat.div_lt_self (by omega) (by omega)
    have h1 : natToChars n = natToCharsAux n (n / 10) ++ [Nat.digitChar (n % 10)] := by
      simp only [natToChars, natToCharsAux, hn, if_false]
    rw [h1, natToCharsAux_fuel (n / 10) n (n / 10 + 1) (by omega) (by omega)]
    simp only [hn, if_false]
    rfl

theorem natToChars_all_digits (n : Nat) :
    ∀ c ∈ natToChars n, isDigitC c = true := by
  induction n using Nat.strong_induction_on with
  | _ n ih =>
    rw [natToChars_eq]
    by_cases hn : n < 10
    · simp only [hn, if_true]
      intro c hc
      simp at hc
      simp [hc, digitChar_isDigit hn]
    · have hlt : n / 10 < n := Nat.div_lt_self (by omega) (by omega)
      simp only [hn, if_false]
      intro c hc
      rcases List.mem_append.mp hc with h | h
      · exact ih (n / 10) hlt c h
      · simp at h
        simp [h, digitChar_isDigit (Nat.mod_lt n (by omega))]

theorem natToChars_ne_nil (n : Nat) : natToChars n ≠ [] := by
  rw [natToChars_eq]
  by_cases hn : n < 10 <;> simp [hn]

theorem digitsVal_append_one (l : List Char) (c : Char) :
    digitsVal (l ++ [c]) = 10 * digitsVal l + digitVal c := by
  simp [digitsVal, List.foldl_append]

theorem digitsVal_natToChars (n : Nat) : digitsVal (natToChars n) = n := by
  induction n using Nat.strong_induction_on with
  | _ n ih =>
    rw [natToChars_eq]
    by_cases hn : n < 10
    · simp [hn, digitsVal, digitVal_digitChar hn]
    · have hlt : n / 10 < n := Nat.div_lt_self (by omega) (by omega)
      simp only [hn, if_false]
      rw [digitsVal_append_one, ih (n / 10) hlt,
        digitVal_digitChar (Nat.mod_lt n (by omega))]
      omega

theorem span_natToChars (n : Nat) {rest : List Char} (h : NoDigitHead rest) :
    (natToChars n ++ rest).span isDigitC = (natToChars n, rest) :=
  span_all_append (natToChars_all_digits n) h

/-! ## Round-trip lemmas: strings -/

set_option maxHeartbeats 2000000 in
theorem parseStrBody_escape (s : List Char) (rest : List Char) :
    parseStrBody (escapeStr s ++ '"' :: rest) = some (s, rest) := by
  induction s with
  | nil => simp [escapeStr, parseStrBody]
  | cons c t ih =>
    show parseStrBody ((escapeChar c ++ escapeStr t) ++ '"' :: rest) = _
    rw [List.append_assoc]
    by_cases h1 : c = '"'
    · subst h1; simp [escapeChar, parseStrBody, ih]
    by_cases h2 : c = '\\'
    · subst h2; simp [escapeChar, parseStrBody, ih]
    by_cases h3 : c = '\n'
    · subst h3; simp [escapeChar, parseStrBody, ih]
    by_cases h4 : c = '\t'
    · subst h4; simp [escapeChar, parseStrBody, ih]
    by_cases h5 : c = '\r'
    · subst h5; simp [escapeChar, parseStrBody, ih]
    by_cases h6 : c = '\x08'
    · subst h6; simp [escapeChar, parseStrBody, ih]
    by_cases h7 : c = '\x0c'
    · subst h7; simp [escapeChar, parseStrBody, ih]
    have hesc : escapeChar c =
        (if c.toNat < 32 then
          ['\\', 'u', '0', '0', Nat.digitChar (c.toNat / 16), Nat.digitChar (c.toNat % 16)]
        else [c]) := by
      simp [escapeChar, h1, h2, h3, h4, h5, h6, h7]
    by_cases h8 : c.toNat < 32
    · have hdiv : c.toNat / 16 < 16 := by omega
      have hmod : c.toNat % 16 < 16 := by omega
      have h0 : hexVal '0' = some 0 := by decide
      rw [hesc, if_pos h8]
      simp only [List.cons_append, List.nil_append, parseStrBody]
      simp only [h0, hexVal_digitChar hdiv, hexVal_digitChar hmod]
      have hcode : ((0 * 16 + 0) * 16 + c.toNat / 16) * 16 + c.toNat % 16 = c.toNat := by
        omega
      rw [hcode, Char.ofNat_toNat]
      simp [ih]
    · rw [hesc, if_neg h8]
      simp only [List.cons_append, List.nil_append]
      rw [parseStrBody]
      all_goals first
      | (simp [h8, ih]; done)
      | exact h1
      | exact h2
      | (intros; exact absurd (by assumption) h1)
      | (intros; exact absurd (by assumption) h2)

/-! ## Round-trip lemmas: structure -/

theorem jsize_pos : ∀ v : Json, 1 ≤ jsize v
  | .null => by simp [jsize]
  | .bool _ => by simp [jsize]
  | .int _ => by simp [jsize]
  | .str _ => by simp [jsize]
  | .arr _ => by simp [jsize]
  | .obj _ => by simp [jsize]

theorem skipWs_cons_neg {c : Char} (h : isJsonWs c = false) (t : List Char) :
    skipWs (c :: t) = c :: t := by
  simp [skipWs, List.dropWhile, h]

theorem skipWs_ws_append {pre : List Char} (h : ∀ c ∈ pre, isJsonWs c = true)
    (s : List Char) : skipWs (pre ++ s) = skipWs s := by
  induction pre with
  | nil => simp
  | cons c t ih =>
    have hc : isJsonWs c = true := h c (by simp)
    simp only [List.cons_append, skipWs, List.dropWhile, hc]
    exact ih (fun d hd => h d (by simp [hd]))

theorem parseVal_ws {pre : List Char} (h : ∀ c ∈ pre, isJsonWs c = true)
    (f : Nat) (s : List Char) : parseVal f (pre ++ s) = parseVal f s := by
  rw [parseVal, parseVal, skipWs_ws_append h]

theorem parseArrRest_ws {pre : List Char} (h : ∀ c ∈ pre, isJsonWs c = true)
    (f : Nat) (s : List Char) (acc : List Json) :
    parseArrRest f (pre ++ s) acc = parseArrRest f s acc := by
  match f with
  | 0 => rfl
  | f + 1 =>
    rw [parseArrRest, parseArrRest, skipWs_ws_append h]

theorem digit_facts {c : Char} (h : isDigitC c = true) :
    isJsonWs c = false ∧ c ≠ '{' ∧ c ≠ '[' ∧ c ≠ '"' ∧ c ≠ 't' ∧ c ≠ 'f' ∧
      c ≠ 'n' ∧ c ≠ '-' ∧ c ≠ ']' ∧ c ≠ '}' ∧ c ≠ ',' := by
  have hn : 48 ≤ c.toNat ∧ c.toNat ≤ 57 := by
    simpa [isDigitC] using h
  refine ⟨?_, ?_, ?_, ?_, ?_, ?_, ?_, ?_, ?_, ?_, ?_⟩
  · simp only [isJsonWs]
    have h1 : c ≠ ' ' := fun he => by subst he; revert hn; decide
    have h2 : c ≠ '\t' := fun he => by subst he; revert hn; decide
    have h3 : c ≠ '\n' := fun he => by subst he; revert hn; decide
    have h4 : c ≠ '\r' := fun he => by subst he; revert hn; decide
    simp [h1, h2, h3, h4]
  all_goals exact fun he => by subst he; revert hn; decide

theorem noDigitHead_itemsTail (r : List Json) (rest : List Char) :
    NoDigitHead (dumpsItemsTail r ++ ']' :: rest) := by
  cases r with
  | nil => exact noDigitHead_cons (by decide)
  | cons x t => exact noDigitHead_cons (by decide)

theorem noDigitHead_fieldsTail (r : List (List Char × Json)) (rest : List Char) :
    NoDigitHead (dumpsFieldsTail r ++ '}' :: rest) := by
  cases r with
  | nil => exact noDigitHead_cons (by decide)
  | cons x t => rcases x with ⟨k, v⟩; exact noDigitHead_cons (by decide)

/-- Every serialized value begins with a character that is not whitespace
and not a closing delimiter or separator. -/
theorem dumps_head (v : Json) : ∃ c s', dumps v = c :: s' ∧ isJsonWs c = false ∧
    c ≠ ']' ∧ c ≠ '}' ∧ c ≠ ',' := by
  match v with
  | .null =>
    exact ⟨'n', ['u', 'l', 'l'], rfl, by decide, by decide, by decide, by decide⟩
  | .bool true =>
    exact ⟨'t', ['r', 'u', 'e'], rfl, by decide, by decide, by decide, by decide⟩
  | .bool false =>
    exact ⟨'f', ['a', 'l', 's', 'e'], rfl, by decide, by decide, by decide, by decide⟩
  | .str s =>
    exact ⟨'"', escapeStr s ++ ['"'], rfl, by decide, by decide, by decide, by decide⟩
  | .arr l =>
    exact ⟨'[', dumpsItems l ++ [']'], rfl, by decide, by decide, by decide, by decide⟩
  | .obj f =>
    exact ⟨'{', dumpsFields f ++ ['}'], rfl, by decide, by decide, by decide, by decide⟩
  | .int n =>
    by_cases hn : n < 0
    · exact ⟨'-', natToChars n.natAbs, by simp [dumps, intToChars, hn],
        by decide, by decide, by decide, by decide⟩
    · obtain ⟨c, s', hcs⟩ : ∃ c s', natToChars n.natAbs = c :: s' := by
        cases he : natToChars n.natAbs with
        | nil => exact absurd he (natToChars_ne_nil _)
        | cons c s' => exact ⟨c, s', rfl⟩
      have hc : isDigitC c = true :=
        natToChars_all_digits n.natAbs c (by rw [hcs]; exact List.mem_cons_self c s')
      obtain ⟨hws, _, _, _, _, _, _, _, h9, h10, h11⟩ := digit_facts hc
      have hd : dumps (.int n) = c :: s' := by
        show intToChars n = c :: s'
        rw [intToChars, if_neg hn, hcs]
      exact ⟨c, s', hd, hws, h9, h10, h11⟩

/-- Keys absent from a dict are appended by `pySetKey`. -/
theorem pySetKey_notMem {k : List Char} {acc : List (List Char × Json)}
    (h : pyLookup k acc = none) (v : Json) :
    pySetKey k v acc = acc ++ [(k, v)] := by
  induction acc with
  | nil => rfl
  | cons kv r ih =>
    rcases kv with ⟨k', v'⟩
    simp only [pyLookup] at h
    by_cases he : k' = k
    · simp [he] at h
    · simp only [pySetKey, he, if_false, List.cons_append]
      rw [ih (by simpa [he] using h)]

theorem pyLookup_append_none {k : List Char} {a b : List (List Char × Json)}
    (ha : pyLookup k a = none) (hb : pyLookup k b = none) :
    pyLookup k (a ++ b) = none := by
  induction a with
  | nil => simpa using hb
  | cons kv r ih =>
    rcases kv with ⟨k', v'⟩
    simp only [pyLookup] at ha ⊢
    by_cases he : k' = k
    · simp [he] at ha
    · simp only [he, if_false] at ha ⊢
      exact ih ha

theorem digit_enum {c : Char} (h : isDigitC c = true) :
    c = '0' ∨ c = '1' ∨ c = '2' ∨ c = '3' ∨ c = '4' ∨ c = '5' ∨ c = '6' ∨
      c = '7' ∨ c = '8' ∨ c = '9' := by
  obtain ⟨h1, h2⟩ : 48 ≤ c.toNat ∧ c.toNat ≤ 57 := by
    simpa [isDigitC] using h
  obtain ⟨k, hk⟩ : ∃ k, c.toNat = k := ⟨c.toNat, rfl⟩
  rw [hk] at h1 h2
  have hofn : Char.ofNat k = c := by
    rw [← hk]
    exact Char.ofNat_toNat c
  interval_cases k <;> (rw [← hofn]; decide)

set_option maxHeartbeats 4000000 in
/-- On digit-headed input the token parser takes its number branch. -/
theorem parseTok_digitHead (f : Nat) {c : Char} (hc : isDigitC c = true)
    (T : List Char) :
    parseTok (f + 1) (c :: T) =
      match (c :: T).span isDigitC with
      | ([], _) => none
      | (ds, rest) => some (.int (digitsVal ds), rest) := by
  rcases digit_enum hc with h | h | h | h | h | h | h | h | h | h <;> (subst h; rfl)

set_option maxHeartbeats 4000000 in
/-- Parsing the decimal print of an integer. -/
theorem parseVal_int (f : Nat) (n : Int) {rest : List Char} (h : NoDigitHead rest) :
    parseVal (f + 1) (dumps (.int n) ++ rest) = some (.int n, rest) := by
  obtain ⟨c, s', hcs⟩ : ∃ c s', natToChars n.natAbs = c :: s' := by
    cases he : natToChars n.natAbs with
    | nil => exact absurd he (natToChars_ne_nil _)
    | cons c s' => exact ⟨c, s', rfl⟩
  have hspan : ((c :: s') ++ rest).span isDigitC = (c :: s', rest) := by
    rw [← hcs]
    exact span_natToChars n.natAbs h
  have hval : digitsVal (c :: s') = n.natAbs := by
    rw [← hcs]
    exact digitsVal_natToChars n.natAbs
  have hc : isDigitC c = true :=
    natToChars_all_digits n.natAbs c (by rw [hcs]; exact List.mem_cons_self c s')
  by_cases hn : n < 0
  · have hd : dumps (.int n) = '-' :: (c :: s') := by
      show intToChars n = _
      rw [intToChars, if_pos hn, hcs]
    rw [hd, List.cons_append, parseVal, skipWs_cons_neg (by decide)]
    simp only [List.cons_append] at hspan
    simp only [parseTok, List.cons_append, hspan, hval]
    have hneg : -((n.natAbs : Int)) = n := by omega
    rw [hneg]
  · have hd : dumps (.int n) = c :: s' := by
      show intToChars n = _
      rw [intToChars, if_neg hn, hcs]
    have hnat : ((n.natAbs : Nat) : Int) = n := by omega
    have hws : isJsonWs c = false := (digit_facts hc).1
    rw [hd, List.cons_append, parseVal, skipWs_cons_neg hws, parseTok_digitHead f hc]
    simp only [List.cons_append] at hspan
    simp only [hspan, hval, hnat]

theorem jsizeItems_pos {l : List Json} (h : l ≠ []) : 1 ≤ jsizeItems l := by
  cases l with
  | nil => exact absurd rfl h
  | cons x xs =>
    have := jsize_pos x
    simp only [jsizeItems]
    omega

theorem jsizeFields_pos {fl : List (List Char × Json)} (h : fl ≠ []) :
    1 ≤ jsizeFields fl := by
  cases fl with
  | nil => exact absurd rfl h
  | cons kv fr =>
    rcases kv with ⟨k, v⟩
    have := jsize_pos v
    simp only [jsizeFields]
    omega

set_option maxHeartbeats 4000000 in
/-- The parser inverts the serializer: mutual statement for values, array
tails and object tails, by induction on fuel. -/
theorem parse_dumps (fuel : Nat) :
    (∀ v rest, jsize v ≤ fuel → jwf v = true → NoDigitHead rest →
      parseVal fuel (dumps v ++ rest) = some (v, rest)) ∧
    (∀ l acc rest, l ≠ [] → jsizeItems l ≤ fuel → jwfItems l = true →
      NoDigitHead rest →
      parseArrRest fuel (dumpsItems l ++ ']' :: rest) acc = some (.arr (acc ++ l), rest)) ∧
    (∀ fl acc rest, fl ≠ [] → jsizeFields fl ≤ fuel → jwfFields fl = true →
      keysDistinct fl = true → (∀ p ∈ fl, pyLookup p.1 acc = none) → NoDigitHead rest →
      parseObjRest fuel (dumpsFields fl ++ '}' :: rest) acc = some (.obj (acc ++ fl), rest)) := by
  induction fuel with
  | zero =>
    refine ⟨?_, ?_, ?_⟩
    · intro v rest hs _ _
      have := jsize_pos v
      omega
    · intro l acc rest hne hs _ _
      have := jsizeItems_pos hne
      omega
    · intro fl acc rest hne hs _ _ _ _
      have := jsizeFields_pos hne
      omega
  | succ f ih =>
    obtain ⟨ihA, ihB, ihC⟩ := ih
    refine ⟨?_, ?_, ?_⟩
    · -- one value
      intro v rest hs hwf hnd
      cases v with
      | null => rfl
      | bool b => cases b <;> rfl
      | int n => exact parseVal_int f n hnd
      | str s =>
        have hd : dumps (.str s) ++ rest = '"' :: (escapeStr s ++ '"' :: rest) := by
          show ('"' :: (escapeStr s ++ ['"'])) ++ rest = _
          simp [List.append_assoc]
        rw [parseVal, hd, skipWs_cons_neg (by decide)]
        simp only [parseTok]
        rw [parseStrBody_escape]
        rfl
      | arr l =>
        cases l with
        | nil => rfl
        | cons x xs =>
          have hd : dumps (.arr (x :: xs)) ++ rest =
              '[' :: (dumpsItems (x :: xs) ++ ']' :: rest) := by
            show ('[' :: (dumpsItems (x :: xs) ++ [']'])) ++ rest = _
            simp [List.append_assoc]
          rw [parseVal, hd, skipWs_cons_neg (by decide)]
          simp only [parseTok]
          obtain ⟨c, s', hcs, hws, hc1, hc2, hc3⟩ := dumps_head x
          have hsk : skipWs (dumpsItems (x :: xs) ++ ']' :: rest) =
              c :: (s' ++ (dumpsItemsTail xs ++ ']' :: rest)) := by
            show skipWs ((dumps x ++ dumpsItemsTail xs) ++ ']' :: rest) = _
            rw [hcs]
            simp only [List.cons_append, List.append_assoc]
            exact skipWs_cons_neg hws _
          rw [hsk]
          split
          · rename_i r2 heq
            exact absurd (List.head_eq_of_cons_eq heq.symm).symm hc1
          · have hfuel : jsizeItems (x :: xs) ≤ f := by
              simp only [jsize] at hs
              omega
            have hwf' : jwfItems (x :: xs) = true := by
              simpa [jwf] using hwf
            have := ihB (x :: xs) [] rest (by simp) hfuel hwf' hnd
            simpa using this
      | obj fl =>
        cases fl with
        | nil => rfl
        | cons kv fr =>
          rcases kv with ⟨k, v⟩
          have hd : dumps (.obj ((k, v) :: fr)) ++ rest =
              '{' :: (dumpsFields ((k, v) :: fr) ++ '}' :: rest) := by
            show ('{' :: (dumpsFields ((k, v) :: fr) ++ ['}'])) ++ rest = _
            simp [List.append_assoc]
          rw [parseVal, hd, skipWs_cons_neg (by decide)]
          simp only [parseTok]
          have hd2 : dumpsFields ((k, v) :: fr) ++ '}' :: rest =
              '"' :: ((escapeStr k ++ ['"']) ++
                (':' :: ' ' :: ((dumps v ++ dumpsFieldsTail fr) ++ '}' :: rest))) := by
            show (dumpStr k ++ ':' :: ' ' :: (dumps v ++ dumpsFieldsTail fr))
              ++ '}' :: rest = _
            simp only [dumpStr, List.cons_append, List.append_assoc]
          have hsk : skipWs (dumpsFields ((k, v) :: fr) ++ '}' :: rest) =
              '"' :: ((escapeStr k ++ ['"']) ++
                (':' :: ' ' :: ((dumps v ++ dumpsFieldsTail fr) ++ '}' :: rest))) := by
            rw [hd2]
            exact skipWs_cons_neg (by decide) _
          rw [hsk]
          split
          · rename_i r2 heq
            injection heq with h1 _
            exact absurd h1 (by decide)
          · rw [← hd2]
            have hfuel : jsizeFields ((k, v) :: fr) ≤ f := by
              simp only [jsize] at hs
              omega
            have hwf' : jwfFields ((k, v) :: fr) = true := by
              simp only [jwf, Bool.and_eq_true] at hwf
              exact hwf.2
            have hkd : keysDistinct ((k, v) :: fr) = true := by
              simp only [jwf, Bool.and_eq_true] at hwf
              exact hwf.1
            have := ihC ((k, v) :: fr) [] rest (by simp) hfuel hwf' hkd
              (by intro p _; rfl) hnd
            simpa using this
    · -- array tail
      intro l acc rest hne hs hwf hnd
      cases l with
      | nil => exact absurd rfl hne
      | cons x xs =>
        rw [parseArrRest]
        have hY : NoDigitHead (dumpsItemsTail xs ++ ']' :: rest) :=
          noDigitHead_itemsTail xs rest
        have hfx : jsize x ≤ f := by
          simp only [jsizeItems] at hs
          have := @jsizeItems_pos xs
          omega
        have hwfx : jwf x = true := by
          simp only [jwfItems, Bool.and_eq_true] at hwf
          exact hwf.1
        have hpv : parseTok f (skipWs (dumpsItems (x :: xs) ++ ']' :: rest)) =
            some (x, dumpsItemsTail xs ++ ']' :: rest) := by
          show parseVal f (dumpsItems (x :: xs) ++ ']' :: rest) = _
          have hshape : dumpsItems (x :: xs) ++ ']' :: rest =
              dumps x ++ (dumpsItemsTail xs ++ ']' :: rest) := by
            show (dumps x ++ dumpsItemsTail xs) ++ ']' :: rest = _
            simp [List.append_assoc]
          rw [hshape]
          exact ihA x _ hfx hwfx hY
        rw [hpv]
        cases xs with
        | nil =>
          show (match skipWs (']' :: rest) with
            | ']' :: r2 => some (Json.arr (acc ++ [x]), r2)
            | ',' :: r2 => parseArrRest f r2 (acc ++ [x])
            | _ => none) = _
          rw [skipWs_cons_neg (by decide)]
          rfl
        | cons y ys =>
          show (match skipWs (dumpsItemsTail (y :: ys) ++ ']' :: rest) with
            | ']' :: r2 => some (Json.arr (acc ++ [x]), r2)
            | ',' :: r2 => parseArrRest f r2 (acc ++ [x])
            | _ => none) = _
          have hsk2 : skipWs (dumpsItemsTail (y :: ys) ++ ']' :: rest) =
              ',' :: (' ' :: ((dumps y ++ dumpsItemsTail ys) ++ ']' :: rest)) := by
            show skipWs ((',' :: ' ' :: (dumps y ++ dumpsItemsTail ys)) ++ ']' :: rest) = _
            simp only [List.cons_append, List.append_assoc]
            exact skipWs_cons_neg (by decide) _
          rw [hsk2]
          have hfuel2 : jsizeItems (y :: ys) ≤ f := by
            simp only [jsizeItems] at hs ⊢
            have := jsize_pos x
            omega
          have hwf2 : jwfItems (y :: ys) = true := by
            simp only [jwfItems, Bool.and_eq_true] at hwf ⊢
            exact hwf.2
          have hrec := ihB (y :: ys) (acc ++ [x]) rest (by simp) hfuel2 hwf2 hnd
          have hws2 : parseArrRest f
              (' ' :: ((dumps y ++ dumpsItemsTail ys) ++ ']' :: rest)) (acc ++ [x]) =
              parseArrRest f ((dumps y ++ dumpsItemsTail ys) ++ ']' :: rest) (acc ++ [x]) := by
            exact @parseArrRest_ws [' '] (by intro c hc; simp at hc; subst hc; rfl) f _ _
          show parseArrRest f (' ' :: ((dumps y ++ dumpsItemsTail ys) ++ ']' :: rest))
              (acc ++ [x]) = _
          rw [hws2]
          have hshape2 : dumpsItems (y :: ys) ++ ']' :: rest =
              (dumps y ++ dumpsItemsTail ys) ++ ']' :: rest := rfl
          rw [← hshape2, hrec]
          simp
    · -- object tail
      intro fl acc rest hne hs hwf hkd hdisj hnd
      cases fl with
      | nil => exact absurd rfl hne
      | cons kv fr =>
        rcases kv with ⟨k, v⟩
        have hd2 : dumpsFields ((k, v) :: fr) ++ '}' :: rest =
            '"' :: ((escapeStr k ++ ['"']) ++
              (':' :: ' ' :: ((dumps v ++ dumpsFieldsTail fr) ++ '}' :: rest))) := by
          show (dumpStr k ++ ':' :: ' ' :: (dumps v ++ dumpsFieldsTail fr))
            ++ '}' :: rest = _
          simp only [dumpStr, List.cons_append, List.append_assoc]
        rw [hd2]
        simp only [parseObjRest]
        have hstr : parseStrBody ((escapeStr k ++ ['"']) ++
            (':' :: ' ' :: ((dumps v ++ dumpsFieldsTail fr) ++ '}' :: rest))) =
            some (k, ':' :: ' ' :: ((dumps v ++ dumpsFieldsTail fr) ++ '}' :: rest)) := by
          rw [List.append_assoc, List.singleton_append]
          exact parseStrBody_escape k _
        rw [hstr]
        have hY : NoDigitHead (dumpsFieldsTail fr ++ '}' :: rest) :=
          noDigitHead_fieldsTail fr rest
        have hfv : jsize v ≤ f := by
          simp only [jsizeFields] at hs
          omega
        have hwfv : jwf v = true := by
          simp only [jwfFields, Bool.and_eq_true] at hwf
          exact hwf.1
        have hpv : parseTok f (skipWs
            (' ' :: ((dumps v ++ dumpsFieldsTail fr) ++ '}' :: rest))) =
            some (v, dumpsFieldsTail fr ++ '}' :: rest) := by
          show parseVal f (' ' :: ((dumps v ++ dumpsFieldsTail fr) ++ '}' :: rest)) = _
          have h1 : (' ' :: ((dumps v ++ dumpsFieldsTail fr) ++ '}' :: rest)) =
              [' '] ++ (dumps v ++ (dumpsFieldsTail fr ++ '}' :: rest)) := by
            simp [List.append_assoc]
          rw [h1, parseVal_ws (by intro c hc; simp at hc; subst hc; rfl)]
          exact ihA v _ hfv hwfv hY
        show (match skipWs (':' :: ' ' ::
            ((dumps v ++ dumpsFieldsTail fr) ++ '}' :: rest)) with
          | ':' :: r3 =>
            match parseTok f (skipWs r3) with
            | none => none
            | some (w, r4) =>
              match skipWs r4 with
              | '}' :: r5 => some (Json.obj (pySetKey k w acc), r5)
              | ',' :: r5 => parseObjRest f (skipWs r5) (pySetKey k w acc)
              | _ => none
          | _ => none) = _
        rw [skipWs_cons_neg (by decide)]
        show (match parseTok f (skipWs
            (' ' :: ((dumps v ++ dumpsFieldsTail fr) ++ '}' :: rest))) with
          | none => none
          | some (w, r4) =>
            match skipWs r4 with
            | '}' :: r5 => some (Json.obj (pySetKey k w acc), r5)
            | ',' :: r5 => parseObjRest f (skipWs r5) (pySetKey k w acc)
            | _ => none) = _
        rw [hpv]
        have hkset : pySetKey k v acc = acc ++ [(k, v)] :=
          pySetKey_notMem (hdisj (k, v) (by simp)) v
        cases fr with
        | nil =>
          show (match skipWs ('}' :: rest) with
            | '}' :: r5 => some (Json.obj (pySetKey k v acc), r5)
            | ',' :: r5 => parseObjRest f (skipWs r5) (pySetKey k v acc)
            | _ => none) = _
          rw [skipWs_cons_neg (by decide)]
          simp [hkset]
        | cons kv2 fr2 =>
          rcases kv2 with ⟨k2, v2⟩
          show (match skipWs (dumpsFieldsTail ((k2, v2) :: fr2) ++ '}' :: rest) with
            | '}' :: r5 => some (Json.obj (pySetKey k v acc), r5)
            | ',' :: r5 => parseObjRest f (skipWs r5) (pySetKey k v acc)
            | _ => none) = _
          have hsk2 : skipWs (dumpsFieldsTail ((k2, v2) :: fr2) ++ '}' :: rest) =
              ',' :: (' ' :: ((dumpStr k2 ++ ':' :: ' ' ::
                (dumps v2 ++ dumpsFieldsTail fr2)) ++ '}' :: rest)) := by
            show skipWs ((',' :: ' ' :: (dumpStr k2 ++ ':' :: ' ' ::
              (dumps v2 ++ dumpsFieldsTail fr2))) ++ '}' :: rest) = _
            simp only [List.cons_append, List.append_assoc]
            exact skipWs_cons_neg (by decide) _
          rw [hsk2]
          have hx2 : (dumpStr k2 ++ ':' :: ' ' :: (dumps v2 ++ dumpsFieldsTail fr2))
              ++ '}' :: rest =
              '"' :: ((escapeStr k2 ++ ['"']) ++
                (':' :: ' ' :: ((dumps v2 ++ dumpsFieldsTail fr2) ++ '}' :: rest))) := by
            simp only [dumpStr, List.cons_append, List.append_assoc]
          have hskip3 : skipWs (' ' :: ((dumpStr k2 ++ ':' :: ' ' ::
              (dumps v2 ++ dumpsFieldsTail fr2)) ++ '}' :: rest)) =
              (dumpStr k2 ++ ':' :: ' ' :: (dumps v2 ++ dumpsFieldsTail fr2))
                ++ '}' :: rest := by
            show skipWs ([' '] ++ ((dumpStr k2 ++ ':' :: ' ' ::
              (dumps v2 ++ dumpsFieldsTail fr2)) ++ '}' :: rest)) = _
            rw [skipWs_ws_append (by intro c hc; simp at hc; subst hc; rfl), hx2]
            exact skipWs_cons_neg (by decide) _
          show parseObjRest f (skipWs (' ' :: ((dumpStr k2 ++ ':' :: ' ' ::
              (dumps v2 ++ dumpsFieldsTail fr2)) ++ '}' :: rest))) (pySetKey k v acc) = _
          rw [hskip3]
          have hfuel2 : jsizeFields ((k2, v2) :: fr2) ≤ f := by
            simp only [jsizeFields] at hs ⊢
            have := jsize_pos v
            omega
          have hwf2 : jwfFields ((k2, v2) :: fr2) = true := by
            simp only [jwfFields, Bool.and_eq_true] at hwf ⊢
            exact hwf.2
          have hkd2 : keysDistinct ((k2, v2) :: fr2) = true := by
            simp only [keysDistinct, Bool.and_eq_true] at hkd ⊢
            exact hkd.2
          have hknotin : ∀ p ∈ (k2, v2) :: fr2, p.1 ≠ k := by
            intro p hp
            simp only [keysDistinct, Bool.and_eq_true, Bool.not_eq_true',
              List.any_eq_false] at hkd
            have := hkd.1 p hp
            simpa using this
          have hdisj2 : ∀ p ∈ (k2, v2) :: fr2, pyLookup p.1 (pySetKey k v acc) = none := by
            intro p hp
            rw [hkset]
            refine pyLookup_append_none (hdisj p (by simp [hp])) ?_
            have hne' : k ≠ p.1 := fun he => hknotin p hp he.symm
            simp [pyLookup, hne']
          have hrec := ihC ((k2, v2) :: fr2) (pySetKey k v acc) rest (by simp)
            hfuel2 hwf2 hkd2 hdisj2 hnd
          have hshape2 : dumpsFields ((k2, v2) :: fr2) ++ '}' :: rest =
              (dumpStr k2 ++ ':' :: ' ' :: (dumps v2 ++ dumpsFieldsTail fr2))
                ++ '}' :: rest := rfl
          rw [← hshape2, hrec, hkset]
          simp

theorem jsize_le_dumps (v : Json) : jsize v ≤ 2 * (dumps v).length := by
  have base : ∀ w : Json, jsize w = 1 → jsize w ≤ 2 * (dumps w).length := by
    intro w hw
    obtain ⟨c, s', hcs, _, _, _, _⟩ := dumps_head w
    rw [hw, hcs]
    simp only [List.length_cons]
    omega
  refine Json.rec (motive_1 := fun v => jsize v ≤ 2 * (dumps v).length)
    (motive_2 := fun l => jsizeItems l ≤ 2 * (dumpsItems l).length + 1)
    (motive_3 := fun fl => jsizeFields fl ≤ 2 * (dumpsFields fl).length + 1)
    (motive_4 := fun kv => jsize kv.2 ≤ 2 * (dumps kv.2).length)
    ?_ ?_ ?_ ?_ ?_ ?_ ?_ ?_ ?_ ?_ ?_ v
  · exact base _ rfl
  · intro b
    cases b <;> exact base _ rfl
  · intro n
    exact base _ rfl
  · intro s
    exact base _ rfl
  · intro items ih
    simp only [jsize, dumps, List.length_cons, List.length_append,
      List.length_singleton] at ih ⊢
    omega
  · intro fields ih
    simp only [jsize, dumps, List.length_cons, List.length_append,
      List.length_singleton] at ih ⊢
    omega
  · simp [jsizeItems]
  · intro x xs ih1 ih2
    cases xs with
    | nil =>
      simp only [jsizeItems, dumpsItems, dumpsItemsTail, List.length_append,
        List.length_nil] at ih1 ih2 ⊢
      omega
    | cons y ys =>
      simp only [jsizeItems, dumpsItems, dumpsItemsTail, List.length_append,
        List.length_cons] at ih1 ih2 ⊢
      omega
  · simp [jsizeFields]
  · intro kv fr ih1 ih2
    rcases kv with ⟨k, v'⟩
    cases fr with
    | nil =>
      simp only [jsizeFields, dumpsFields, dumpsFieldsTail, List.length_append,
        List.length_cons, List.length_nil] at ih1 ih2 ⊢
      omega
    | cons kv2 fr2 =>
      rcases kv2 with ⟨k2, v2⟩
      simp only [jsizeFields, dumpsFields, dumpsFieldsTail, List.length_append,
        List.length_cons] at ih1 ih2 ⊢
      omega
  · intro k v' ih
    exact ih

/-- Round trip: parsing a serialized well-formed value returns it exactly. -/
theorem loads_dumps {v : Json} (h : jwf v = true) : loads (dumps v) = some v := by
  have hfuel : jsize v ≤ 2 * (dumps v).length + 2 := by
    have := jsize_le_dumps v
    omega
  have hp := (parse_dumps (2 * (dumps v).length + 2)).1 v [] hfuel h noDigitHead_nil
  rw [List.append_nil] at hp
  rw [loads, hp]
  rfl

/-! ## `_safe_json_extract` (app.py lines 69-74) -/

/-- The string finally handed to `json.loads` by `_safe_json_extract`:
strip whitespace, strip backtick fencing when the text starts with a fence,
then slice from the first `{` to the last `}` when both exist in order. -/
def extractionSlice (txt : List Char) : List Char :=
  let s0 := pyStrip txt
  let s1 := if pyStartsWith "```".toList s0 then pyStripChar '`' s0 else s0
  match pyFind '{' s1, pyRfind '}' s1 with
  | some i, some j => if i < j then pySlice s1 i (j + 1) else s1
  | _, _ => s1

/-- `_safe_json_extract`: slice heuristically, then parse; `none` models the
`json.loads` exception propagating to the caller. -/
def safeJsonExtract (txt : List Char) : Option Json :=
  loads (extractionSlice txt)

/-- Both strip passes are instances of one two-sided `dropWhile`. -/
def genStrip (p : Char → Bool) (s : List Char) : List Char :=
  ((s.dropWhile p).reverse.dropWhile p).reverse

theorem pyStrip_eq_genStrip (s : List Char) : pyStrip s = genStrip isPyWs s := rfl

theorem pyStripChar_eq_genStrip (ch : Char) (s : List Char) :
    pyStripChar ch s = genStrip (· = ch) s := rfl

theorem dropWhile_append_cons {p : Char → Bool} (P : List Char) {c : Char} (t : List Char)
    (hc : p c = false) :
    List.dropWhile p (P ++ c :: t) = List.dropWhile p P ++ c :: t := by
  induction P with
  | nil => simp [List.dropWhile, hc]
  | cons a P' ih =>
    by_cases ha : p a
    · simp [List.dropWhile, ha, ih]
    · simp [List.dropWhile, ha]

theorem genStrip_mid (p : Char → Bool) (P S M : List Char) {c0 c1 : Char}
    (h0 : p c0 = false) (h1 : p c1 = false) :
    genStrip p (P ++ (c0 :: (M ++ [c1])) ++ S) =
      List.dropWhile p P ++ (c0 :: (M ++ [c1])) ++
        (List.dropWhile p S.reverse).reverse := by
  unfold genStrip
  have e1 : P ++ (c0 :: (M ++ [c1])) ++ S = P ++ c0 :: ((M ++ [c1]) ++ S) := by
    simp [List.append_assoc]
  rw [e1, dropWhile_append_cons P _ h0]
  have e2 : (List.dropWhile p P ++ c0 :: ((M ++ [c1]) ++ S)).reverse =
      S.reverse ++ c1 :: (M.reverse ++ c0 :: (List.dropWhile p P).reverse) := by
    simp [List.reverse_append, List.reverse_cons, List.append_assoc]
  rw [e2, dropWhile_append_cons _ _ h1]
  simp [List.reverse_append, List.reverse_cons, List.append_assoc]

theorem pyFind_append_cons (P t : List Char) (ch : Char)
    (hP : ∀ c ∈ P, c ≠ ch) : pyFind ch (P ++ ch :: t) = some P.length := by
  induction P with
  | nil => simp [pyFind]
  | cons a P' ih =>
    have ha : ¬(a = ch) := hP a (by simp)
    show pyFind ch (a :: (P' ++ ch :: t)) = some (a :: P').length
    rw [pyFind, if_neg ha, ih (fun c hc => hP c (by simp [hc]))]
    rfl

theorem pyRfind_append_cons (P S : List Char) (ch : Char)
    (hS : ∀ c ∈ S, c ≠ ch) :
    pyRfind ch (P ++ [ch] ++ S) = some
      ((P ++ [ch] ++ S).length - 1 - S.length) := by
  unfold pyRfind
  have e1 : (P ++ [ch] ++ S).reverse = S.reverse ++ ch :: P.reverse := by
    simp [List.reverse_append]
  rw [e1, pyFind_append_cons _ _ _ (fun c hc => hS c (List.mem_reverse.mp hc))]
  simp

/-- On input of the form `prose ++ dumps(obj) ++ prose` with brace-free
prose, the slicing heuristic recovers exactly `dumps(obj)`. -/
theorem extractionSlice_wrapped (fields : List (List Char × Json))
    (P S : List Char)
    (hP : ∀ c ∈ P, c ≠ '{' ∧ c ≠ '}') (hS : ∀ c ∈ S, c ≠ '{' ∧ c ≠ '}') :
    extractionSlice (P ++ dumps (.obj fields) ++ S) = dumps (.obj fields) := by
  have hD : dumps (.obj fields) = '{' :: (dumpsFields fields ++ ['}']) := rfl
  -- the two strip passes preserve the serialized object and keep the
  -- surrounding prose brace-free
  have main : ∀ P' S' : List Char, (∀ c ∈ P', c ≠ '{' ∧ c ≠ '}') →
      (∀ c ∈ S', c ≠ '{' ∧ c ≠ '}') →
      (match pyFind '{' (P' ++ dumps (.obj fields) ++ S'),
             pyRfind '}' (P' ++ dumps (.obj fields) ++ S') with
       | some i, some j =>
         if i < j then pySlice (P' ++ dumps (.obj fields) ++ S') i (j + 1)
         else P' ++ dumps (.obj fields) ++ S'
       | _, _ => P' ++ dumps (.obj fields) ++ S') = dumps (.obj fields) := by
    intro P' S' hP' hS'
    have hfind : pyFind '{' (P' ++ dumps (.obj fields) ++ S') = some P'.length := by
      have e : P' ++ dumps (.obj fields) ++ S' =
          P' ++ '{' :: ((dumpsFields fields ++ ['}']) ++ S') := by
        rw [hD]
        simp [List.append_assoc]
      rw [e]
      exact pyFind_append_cons _ _ _ (fun c hc => (hP' c hc).1)
    have hrfind : pyRfind '}' (P' ++ dumps (.obj fields) ++ S') =
        some (P'.length + (dumps (.obj fields)).length - 1) := by
      have e : P' ++ dumps (.obj fields) ++ S' =
          (P' ++ ('{' :: dumpsFields fields)) ++ ['}'] ++ S' := by
        rw [hD]
        simp [List.append_assoc]
      rw [e, pyRfind_append_cons _ _ _ (fun c hc => (hS' c hc).2)]
      congr 1
      simp only [hD, List.length_append, List.length_cons, List.length_singleton,
        List.length_nil]
      omega
    rw [hfind, hrfind]
    have hlen : 2 ≤ (dumps (.obj fields)).length := by
      rw [hD]
      simp only [List.length_cons, List.length_append, List.length_singleton]
      omega
    have hij : P'.length < P'.length + (dumps (.obj fields)).length - 1 := by
      omega
    show (if P'.length < P'.length + (dumps (Json.obj fields)).length - 1 then
        pySlice (P' ++ dumps (.obj fields) ++ S') P'.length
          (P'.length + (dumps (.obj fields)).length - 1 + 1)
      else P' ++ dumps (.obj fields) ++ S') = dumps (.obj fields)
    rw [if_pos hij]
    unfold pySlice
    have hdrop : (P' ++ dumps (.obj fields) ++ S').drop P'.length =
        dumps (.obj fields) ++ S' := by
      rw [List.append_assoc, List.drop_left]
    rw [hdrop]
    have htake : P'.length + (dumps (.obj fields)).length - 1 + 1 - P'.length =
        (dumps (.obj fields)).length := by
      omega
    rw [htake, List.take_left]
  simp only [extractionSlice]
  rw [pyStrip_eq_genStrip]
  have hstrip1 : genStrip isPyWs (P ++ dumps (.obj fields) ++ S) =
      List.dropWhile isPyWs P ++ dumps (.obj fields) ++
        (List.dropWhile isPyWs S.reverse).reverse := by
    rw [hD]
    exact genStrip_mid isPyWs P S (dumpsFields fields) (by decide) (by decide)
  rw [hstrip1]
  have hP1 : ∀ c ∈ List.dropWhile isPyWs P, c ≠ '{' ∧ c ≠ '}' :=
    fun c hc => hP c ((List.dropWhile_sublist _).mem hc)
  have hS1 : ∀ c ∈ (List.dropWhile isPyWs S.reverse).reverse, c ≠ '{' ∧ c ≠ '}' :=
    fun c hc => hS c (List.mem_reverse.mp ((List.dropWhile_sublist _).mem
      (List.mem_reverse.mp hc)))
  by_cases hfence : pyStartsWith "```".toList
      (List.dropWhile isPyWs P ++ dumps (.obj fields) ++
        (List.dropWhile isPyWs S.reverse).reverse)
  · rw [if_pos hfence, pyStripChar_eq_genStrip]
    have hstrip2 : genStrip (· = '`')
        (List.dropWhile isPyWs P ++ dumps (.obj fields) ++
          (List.dropWhile isPyWs S.reverse).reverse) =
        List.dropWhile (· = '`') (List.dropWhile isPyWs P) ++ dumps (.obj fields) ++
          (List.dropWhile (· = '`')
            (List.dropWhile isPyWs S.reverse).reverse.reverse).reverse := by
      rw [hD]
      exact genStrip_mid _ _ _ (dumpsFields fields) (by decide) (by decide)
    rw [hstrip2]
    exact main _ _
      (fun c hc => hP1 c ((List.dropWhile_sublist _).mem hc))
      (fun c hc => hS1 c (List.mem_reverse.mp ((List.dropWhile_sublist _).mem
        (List.mem_reverse.mp hc))))
  · rw [if_neg hfence]
    exact main _ _ hP1 hS1

/-! ## Extraction pipeline (app.py lines 76-104) -/

/-- `if not data.get("roll_no"): data["roll_no"] = reg_no` (line 87). -/
def rollNoFallback (fields : List (List Char × Json)) (reg : List Char) :
    List (List Char × Json) :=
  if truthy (pyGetD fields "roll_no".toList .null) then fields
  else pySetKey "roll_no".toList (.str reg) fields

/-- `gemini_extract_candidate_json` after the upstream call returned
`respText`: `_safe_json_extract(resp.text or "{}")`, then the roll-number
fallback.  `none` models an exception reaching the caller's `try` (either
the parse error or the `AttributeError` from `.get` on a non-dict). -/
def gemini_extract_candidate_json (respText reg : List Char) : Option Json :=
  let t := if respText = [] then "\x7b\x7d".toList else respText
  match safeJsonExtract t with
  | some (.obj fields) => some (.obj (rollNoFallback fields reg))
  | some _ => none
  | none => none

/-- One agent entry of `st.session_state.assistants` (line 189). -/
structure AgentRec where
  assistant_id : Option Json
  candidate_json : Json
  name : Json

/-- The mutable session state the handlers touch. -/
structure AppState where
  candidate_json : Option Json
  assistants : List (Json × AgentRec)
  current_candidate : Option Json

/-- The `extract_btn` handler (lines 100-104): store the record on success,
show an error and leave the state unchanged on exception. -/
def extractStep (st : AppState) (respText reg : List Char) : AppState :=
  match gemini_extract_candidate_json respText reg with
  | some d => { st with candidate_json := some d }
  | none => st

/-- The `Apply Edited JSON` handler (lines 109-114).  The boolean is `true`
when the invalid-JSON error message was shown. -/
def applyEditedStep (st : AppState) (txt : List Char) : AppState × Bool :=
  match loads txt with
  | some v => ({ st with candidate_json := some v }, false)
  | none => (st, true)

/-! ## Prompt composition (app.py lines 118-158) -/

/-- Escape one character the way `repr` of a Python `str` does, given the
chosen quote character. -/
def reprEscapeChar (q c : Char) : List Char :=
  if c = '\\' then ['\\', '\\']
  else if c = q then ['\\', q]
  else if c = '\n' then ['\\', 'n']
  else if c = '\r' then ['\\', 'r']
  else if c = '\t' then ['\\', 't']
  else if c.toNat < 32 || c.toNat = 127 then
    ['\\', 'x', Nat.digitChar (c.toNat / 16), Nat.digitChar (c.toNat % 16)]
  else [c]

def reprEscapeStr (q : Char) : List Char → List Char
  | [] => []
  | c :: r => reprEscapeChar q c ++ reprEscapeStr q r

/-- Python `repr` of a `str`: single quotes, or double quotes when the text
holds a single quote but no double quote. -/
def reprStr (s : List Char) : List Char :=
  let q := if s.contains '\'' && !(s.contains '"') then '"' else '\''
  q :: reprEscapeStr q s ++ [q]

mutual

/-- Python `repr` of a parsed-JSON value (used by `str` for containers). -/
def pyReprJ : Json → List Char
  | .null => "None".toList
  | .bool true => "True".toList
  | .bool false => "False".toList
  | .int n => intToChars n
  | .str s => reprStr s
  | .arr l => '[' :: pyReprItems l ++ [']']
  | .obj f => '{' :: pyReprFields f ++ ['}']

def pyReprItems : List Json → List Char
  | [] => []
  | x :: r => pyReprJ x ++ pyReprItemsTail r

def pyReprItemsTail : List Json → List Char
  | [] => []
  | x :: r => ',' :: ' ' :: (pyReprJ x ++ pyReprItemsTail r)

def pyReprFields : List (List Char × Json) → List Char
  | [] => []
  | (k, v) :: r => reprStr k ++ ':' :: ' ' :: (pyReprJ v ++ pyReprFieldsTail r)

def pyReprFieldsTail : List (List Char × Json) → List Char
  | [] => []
  | (k, v) :: r => ',' :: ' ' :: (reprStr k ++ ':' :: ' ' :: (pyReprJ v ++ pyReprFieldsTail r))

end

/-- Python `str()` of a parsed-JSON value, as `str.format` applies it to a
substituted field. -/
def pyStrJ : Json → List Char
  | .str s => s
  | v => pyReprJ v

/-- `FULL_PROMPT_TEMPLATE` up to `{name}`. -/
def promptPart1 : List Char :=
  ("\n[Identity]\nYou are a UPSC Interview Board Member conducting the Civil Services Personality Test.\nRole: Senior bureaucrat/academician, neutral and impartial.\nPurpose: To simulate a 30–35 minute UPSC Personality Test Interview for candidate ").toList

/-- Between `{name}` and `{roll_no}`. -/
def promptPart2 : List Char := " (Roll No: ".toList

/-- Between `{roll_no}` and `{interviewee_json}`. -/
def promptPart3 : List Char :=
  ("), followed by 5 minutes of feedback.\n\n[Style]\n- Formal, dignified, polite, and probing.\n- Neutral and impartial.\n- Adaptive: switch roles between Chair and Subject-Matter Experts.\n- Build follow-up questions from candidate's answers.\n\n[Response Guidelines]\n- Ask one clear question at a time.\n- If vague → ask for specifics.\n- If fact-only → seek opinion/analysis.\n- If hesitant → reassure.\n- If extreme view → present counterview.\n- Always stay courteous.\n\n[Task & Flow]\n1) Opening (2 min)\n2) DAF-based Background (8–10 min)\n3) Academic & Optional Subject (8–10 min)\n4) Hobbies, ECAs & Personality (5–7 min)\n5) Current Affairs & Governance (7–8 min)\n6) Closing (2 min)\n7) Feedback (5 min)\n\n[Error Handling]\n- If candidate says \"I don't know\" accept gracefully.\n- If candidate misunderstands politely clarify.\n\n[Interviewee JSON]\n").toList

/-- After `{interviewee_json}`. -/
def promptPart4 : List Char := "\n".toList

/-- `FULL_PROMPT_TEMPLATE.format(**prompt_seed)`: the template is a fixed
literal, so `str.format` is splicing the three values between its pieces. -/
def renderPrompt (name roll ij : List Char) : List Char :=
  promptPart1 ++ name ++ promptPart2 ++ roll ++ promptPart3 ++ ij ++ promptPart4

/-- The `prompt_seed` dict of lines 154-157; `none` models the uncaught
`AttributeError` when `candidate_json` is a truthy non-dict. -/
def prompt_seed (cand : Option Json) (reg : List Char) :
    Option (List Char × List Char × List Char) :=
  match cand with
  | some v =>
    if truthy v then
      match v with
      | .obj f =>
        some (pyStrJ (pyGetD f "name".toList (.str "Candidate".toList)),
          pyStrJ (pyGetD f "roll_no".toList (.str reg)),
          dumpsInd 0 v)
      | _ => none
    else some ("Candidate".toList, reg, dumpsInd 0 (.obj []))
  | none => some ("Candidate".toList, reg, dumpsInd 0 (.obj []))

/-- Line 158: the rendered system prompt. -/
def composePrompt (cand : Option Json) (reg : List Char) : Option (List Char) :=
  (prompt_seed cand reg).map (fun t => renderPrompt t.1 t.2.1 t.2.2)

/-! ## Agent provisioning (app.py lines 171-193) -/

/-- An HTTP response from the voice platform. -/
structure HttpResp where
  status : Nat
  text : List Char

/-- `create_vapi_assistant` from the response on: status ≥ 300 raises
`RuntimeError(f"Assistant create failed: {r.status_code} {r.text}")`,
otherwise `r.json().get("id")` (whose own failures also raise). -/
def create_vapi_assistant (r : HttpResp) : Except (List Char) (Option Json) :=
  if 300 ≤ r.status then
    .error ("Assistant create failed: ".toList ++ natToChars r.status ++ ' ' :: r.text)
  else
    match loads r.text with
    | some (.obj f) => .ok (pyLookup "id".toList f)
    | some _ => .error "AttributeError: response JSON is not an object".toList
    | none => .error "response body is not valid JSON".toList

/-- `rn = (st.session_state.candidate_json or {}).get("roll_no") or reg_no or "NA"`. -/
def rnOf (cand : Option Json) (reg : List Char) : Option Json :=
  let base : Option (List (List Char × Json)) :=
    match cand with
    | some v =>
      if truthy v then
        match v with
        | .obj f => some f
        | _ => none
      else some []
    | none => some []
  match base with
  | none => none
  | some f =>
    let r0 := pyGetD f "roll_no".toList .null
    some (if truthy r0 then r0
      else if reg ≠ [] then .str reg else .str "NA".toList)

/-- `cname_default = (st.session_state.candidate_json or {}).get("name") or "Candidate"`
(line 163), then line 189 stores `.get("name", cname_default)`. -/
def agentName (cand : Option Json) : Option Json :=
  let base : Option (List (List Char × Json)) :=
    match cand with
    | some v =>
      if truthy v then
        match v with
        | .obj f => some f
        | _ => none
      else some []
    | none => some []
  match base with
  | none => none
  | some f =>
    match pyLookup "name".toList f with
    | some v => some v
    | none =>
      let n0 := pyGetD f "name".toList .null
      some (if truthy n0 then n0 else .str "Candidate".toList)

/-- `st.session_state.candidate_json or {}` as stored in the AgentRec. -/
def candStored (cand : Option Json) : Json :=
  match cand with
  | some v => if truthy v then v else .obj []
  | none => .obj []

def pyMapLookup (k : Json) : List (Json × AgentRec) → Option AgentRec
  | [] => none
  | (k', v) :: r => if k' = k then some v else pyMapLookup k r

def pySetMap (k : Json) (v : AgentRec) : List (Json × AgentRec) → List (Json × AgentRec)
  | [] => [(k, v)]
  | (k', v') :: r => if k' = k then (k, v) :: r else (k', v') :: pySetMap k v r

/-- The `create_btn` handler (lines 179-193): on any exception the state is
untouched; on success the AgentRec is written under `rn`. -/
def create_btn_step (st : AppState) (reg : List Char) (resp : HttpResp) : AppState :=
  match rnOf st.candidate_json reg with
  | none => st
  | some rn =>
    match create_vapi_assistant resp with
    | .error _ => st
    | .ok aid =>
      match agentName st.candidate_json with
      | none => st
      | some nm =>
        { st with
          assistants := pySetMap rn ⟨aid, candStored st.candidate_json, nm⟩ st.assistants,
          current_candidate := some rn }

/-! ## Feedback retrieval (app.py lines 906-938) -/

/-- Python `==` on parsed-JSON values.  `True == 1` style numeric
unification is the only cross-type equality; containers compare
structurally (the call data compared here is strings or `None`). -/
def pyEqJ (a b : Json) : Bool :=
  match a, b with
  | .bool x, .int m => ((if x then (1 : Int) else 0) == m)
  | .int n, .bool y => (n == (if y then (1 : Int) else 0))
  | _, _ => a == b

/-- A call summary as returned by the platform: one JSON object's fields. -/
def CallDict := List (List Char × Json)

/-- `c.get(k)`: an absent key yields Python `None`, indistinguishable from
a JSON `null` value. -/
def cGet (c : CallDict) (k : List Char) : Json :=
  pyGetD c k .null

/-- `after_start` (lines 912-916): falsy `startedAt` fails the test; a
string compares lexicographically; a truthy non-string raises `TypeError`,
which the bare `except` converts to `True`. -/
def after_start (startedAfter : List Char) (c : CallDict) : Bool :=
  let s := cGet c "startedAt".toList
  if truthy s then
    match s with
    | .str sv => lexLe startedAfter sv
    | _ => true
  else false

/-- Line 917: the retention filter. -/
def latestFiltered (items : List CallDict) (assistantId : Json)
    (startedAfter : List Char) : List CallDict :=
  items.filter (fun c =>
    pyEqJ (cGet c "assistantId".toList) assistantId && after_start startedAfter c)

/-- The sort key of line 918:
`x.get("endedAt") or x.get("updatedAt") or x.get("createdAt") or ""`. -/
def sortKeyOf (c : CallDict) : Json :=
  let e := cGet c "endedAt".toList
  if truthy e then e
  else
    let u := cGet c "updatedAt".toList
    if truthy u then u
    else
      let cr := cGet c "createdAt".toList
      if truthy cr then cr else .str []

/-- The key as a string; a truthy non-string key would make `sorted` raise
`TypeError` in Python, outside the CallRecord data model (timestamps are
strings or null). -/
def sortKeyStr (c : CallDict) : List Char :=
  match sortKeyOf c with
  | .str s => s
  | _ => []

/-- Stable descending insertion, the order `sorted(key=…, reverse=True)`
produces. -/
def insertDesc (x : CallDict) : List CallDict → List CallDict
  | [] => [x]
  | y :: ys =>
    if lexLe (sortKeyStr y) (sortKeyStr x) then x :: y :: ys
    else y :: insertDesc x ys

def sortDesc (l : List CallDict) : List CallDict :=
  l.foldr insertDesc []

/-- `get_latest_call_for_assistant` on an already-listed `items`
(lines 917-919): `filtered[0] if filtered else {}`, the empty dict meaning
"no completed call yet". -/
def get_latest_call (items : List CallDict) (assistantId : Json)
    (startedAfter : List Char) : Option CallDict :=
  match sortDesc (latestFiltered items assistantId startedAfter) with
  | [] => none
  | c :: _ => some c

/-! ## Feedback table (app.py lines 928-938) -/

/-- The twelve structured-data field names in display order (line 932). -/
def fieldOrder : List (List Char) :=
  ["clarityOfExpression".toList, "reasoningAbility".toList, "analyticalDepth".toList,
   "currentAffairsAwareness".toList, "ethicalJudgment".toList, "personalityTraits".toList,
   "socialAwareness".toList, "hobbiesDepth".toList, "overallImpression".toList,
   "strengths".toList, "areasForImprovement".toList, "overallFeedback".toList]

/-- `display_names` (line 933). -/
def displayNames : List (List Char × List Char) :=
  [("clarityOfExpression".toList, "Clarity of Expression".toList),
   ("reasoningAbility".toList, "Reasoning Ability".toList),
   ("analyticalDepth".toList, "Analytical Depth".toList),
   ("currentAffairsAwareness".toList, "Current Affairs Awareness".toList),
   ("ethicalJudgment".toList, "Ethical Judgment".toList),
   ("personalityTraits".toList, "Personality Traits".toList),
   ("socialAwareness".toList, "Social Awareness".toList),
   ("hobbiesDepth".toList, "Hobbies & Interests".toList),
   ("overallImpression".toList, "Overall Impression".toList),
   ("strengths".toList, "Key Strengths".toList),
   ("areasForImprovement".toList, "Areas for Improvement".toList),
   ("overallFeedback".toList, "Overall Feedback".toList)]

def labelLookup (k : List Char) : List (List Char × List Char) → Option (List Char)
  | [] => none
  | (k', v) :: r => if k' = k then some v else labelLookup k r

/-- `display_names.get(k, k)`. -/
def displayName (k : List Char) : List Char :=
  (labelLookup k displayNames).getD k

/-- The loop of lines 934-936: one (criterion, feedback) row per field that
is present and truthy, in the fixed order. -/
def feedbackRows (sf : List (List Char × Json)) : List (List Char × Json) :=
  fieldOrder.foldl (fun rows k =>
    match pyLookup k sf with
    | some v => if truthy v then rows ++ [(displayName k, v)] else rows
    | none => rows) []

/-- The placeholder row of line 937. -/
def statusRow : List Char × Json :=
  ("Status".toList,
   .str "Analysis in progress. Please wait for interview completion.".toList)

/-- `flatten_feedback_for_table`: rows of the resulting table, as
(criterion, feedback) pairs.  `none` models the `AttributeError` on a
truthy non-dict `analysis`; a non-dict `structuredData` is likewise outside
the CallRecord data model. -/
def flatten_feedback_for_table (call : Json) : Option (List (List Char × Json)) :=
  match call with
  | .obj cf =>
    let a := pyGetD cf "analysis".toList .null
    let analysis := if truthy a then a else .obj []
    match analysis with
    | .obj af =>
      let s := pyGetD af "structuredData".toList .null
      let structured := if truthy s then s else .obj []
      match structured with
      | .obj sf =>
        let rows := feedbackRows sf
        some (if rows = [] then [statusRow] else rows)
      | _ => none
    | _ => none
  | _ => none

/-! ## Parser soundness facts used for rejection claims -/

set_option maxHeartbeats 2000000 in
theorem parseStrBody_suffix (s : List Char) : ∀ k r, parseStrBody s = some (k, r) →
    r <:+ s := by
  induction s using parseStrBody.induct <;> intro k r h <;>
    simp only [parseStrBody] at h
  case case1 => exact absurd h (by simp)
  case case2 =>
    simp only [Option.some.injEq, Prod.mk.injEq] at h
    obtain ⟨-, h2⟩ := h
    subst h2
    exact List.suffix_cons _ _
  case case11 =>
    rename_i e4 e3 e2 e1 ih
    simp only [e1, e2, e3, e4] at h
    obtain ⟨⟨k2, r2⟩, hpr, hkr⟩ := Option.map_eq_some'.mp h
    cases hkr
    exact (ih _ _ hpr).trans ((List.suffix_cons _ _).trans ((List.suffix_cons _ _).trans
      ((List.suffix_cons _ _).trans ((List.suffix_cons _ _).trans
        ((List.suffix_cons _ _).trans (List.suffix_cons _ _))))))
  case case12 => exact absurd h (by simp)
  case case13 => exact absurd h (by simp)
  case case14 =>
    rename_i hlt
    rw [if_pos hlt] at h
    exact absurd h (by simp)
  case case15 =>
    rename_i hge ih
    rw [if_neg hge] at h
    obtain ⟨⟨k2, r2⟩, hpr, hkr⟩ := Option.map_eq_some'.mp h
    cases hkr
    exact (ih _ _ hpr).trans (List.suffix_cons _ _)
  all_goals
    rename_i ih
    obtain ⟨⟨k2, r2⟩, hpr, hkr⟩ := Option.map_eq_some'.mp h
    cases hkr
    exact (ih _ _ hpr).trans ((List.suffix_cons _ _).trans (List.suffix_cons _ _))

theorem skipWs_suffix (s : List Char) : skipWs s <:+ s :=
  List.dropWhile_suffix _

set_option maxHeartbeats 2000000 in
/-- All three parsers return a suffix of their input as the rest. -/
theorem parsers_suffix : ∀ fuel : Nat,
    (∀ s v r, parseTok fuel s = some (v, r) → r <:+ s) ∧
    (∀ s acc v r, parseArrRest fuel s acc = some (v, r) → r <:+ s) ∧
    (∀ s acc v r, parseObjRest fuel s acc = some (v, r) → r <:+ s) := by
  intro fuel
  induction fuel using Nat.strong_induction_on with
  | _ fuel ih =>
    refine ⟨?_, ?_, ?_⟩
    · intro s v r h
      rw [parseTok.eq_def] at h
      split at h
      · exact absurd h (by simp)
      · -- object branch
        rename_i f r'
        split at h
        · rename_i r2 heq
          simp only [Option.some.injEq, Prod.mk.injEq] at h
          obtain ⟨-, h2⟩ := h
          subst h2
          have h1 : ('}' :: r2) <:+ r' := heq ▸ skipWs_suffix r'
          exact ((List.suffix_cons '}' r2).trans h1).trans (List.suffix_cons _ _)
        · exact (((ih f (by omega)).2.2 _ _ _ _ h).trans (skipWs_suffix r')).trans
            (List.suffix_cons _ _)
      · -- array branch
        rename_i f r'
        split at h
        · rename_i r2 heq
          simp only [Option.some.injEq, Prod.mk.injEq] at h
          obtain ⟨-, h2⟩ := h
          subst h2
          have h1 : (']' :: r2) <:+ r' := heq ▸ skipWs_suffix r'
          exact ((List.suffix_cons ']' r2).trans h1).trans (List.suffix_cons _ _)
        · exact ((ih f (by omega)).2.1 _ _ _ _ h).trans (List.suffix_cons _ _)
      · -- string branch
        rename_i f r'
        obtain ⟨⟨k2, r2⟩, hpr, hkr⟩ := Option.map_eq_some'.mp h
        cases hkr
        exact (parseStrBody_suffix _ _ _ hpr).trans (List.suffix_cons _ _)
      · -- true
        rename_i f r'
        simp only [Option.some.injEq, Prod.mk.injEq] at h
        obtain ⟨-, h2⟩ := h
        subst h2
        exact (List.suffix_cons _ _).trans ((List.suffix_cons _ _).trans
          ((List.suffix_cons _ _).trans (List.suffix_cons _ _)))
      · -- false
        rename_i f r'
        simp only [Option.some.injEq, Prod.mk.injEq] at h
        obtain ⟨-, h2⟩ := h
        subst h2
        exact (List.suffix_cons _ _).trans ((List.suffix_cons _ _).trans
          ((List.suffix_cons _ _).trans ((List.suffix_cons _ _).trans
            (List.suffix_cons _ _))))
      · -- null
        rename_i f r'
        simp only [Option.some.injEq, Prod.mk.injEq] at h
        obtain ⟨-, h2⟩ := h
        subst h2
        exact (List.suffix_cons _ _).trans ((List.suffix_cons _ _).trans
          ((List.suffix_cons _ _).trans (List.suffix_cons _ _)))
      · -- negative number
        rename_i f r'
        split at h
        · exact absurd h (by simp)
        · rename_i ds rest hne heq
          simp only [Option.some.injEq, Prod.mk.injEq] at h
          obtain ⟨-, h2⟩ := h
          subst h2
          have hrw : rest = r'.dropWhile isDigitC := by
            rw [List.span_eq_take_drop] at heq
            exact ((Prod.mk.injEq .. ▸ heq).2).symm
          rw [hrw]
          exact (List.dropWhile_suffix _).trans (List.suffix_cons _ _)
      · -- plain number
        split at h
        · exact absurd h (by simp)
        · rename_i ds rest hne heq
          simp only [Option.some.injEq, Prod.mk.injEq] at h
          obtain ⟨-, h2⟩ := h
          subst h2
          have hrw : rest = List.dropWhile isDigitC s := by
            rw [List.span_eq_take_drop] at heq
            exact ((Prod.mk.injEq .. ▸ heq).2).symm
          rw [hrw]
          exact List.dropWhile_suffix _
    · intro s acc v r h
      rw [parseArrRest.eq_def] at h
      split at h
      · exact absurd h (by simp)
      · rename_i f
        rcases hpt : parseTok f (skipWs s) with - | ⟨v', r'⟩
        · rw [hpt] at h
          exact absurd h (by simp)
        · rw [hpt] at h
          have hsub : r' <:+ s := (((ih f (by omega)).1) _ _ _ hpt).trans (skipWs_suffix s)
          split at h
          · rename_i heqn
            exact absurd heqn (by simp)
          · rename_i v2 r2 heq
            injection heq with heq1
            injection heq1 with heq2 heq3
            subst heq2
            subst heq3
            split at h
            · rename_i r3 heq
              simp only [Option.some.injEq, Prod.mk.injEq] at h
              obtain ⟨-, h2⟩ := h
              subst h2
              have h1 : (']' :: r3) <:+ r' := heq ▸ skipWs_suffix r'
              exact ((List.suffix_cons ']' r3).trans h1).trans hsub
            · rename_i r3 heq
              have h1 : (',' :: r3) <:+ r' := heq ▸ skipWs_suffix r'
              exact ((((ih f (by omega)).2.1 _ _ _ _ h).trans
                (List.suffix_cons ',' r3)).trans h1).trans hsub
            · exact absurd h (by simp)
    · intro s acc v r h
      rw [parseObjRest.eq_def] at h
      split at h
      · exact absurd h (by simp)
      · rename_i f r'
        rcases hps : parseStrBody r' with - | ⟨k2, r2⟩
        · rw [hps] at h
          exact absurd h (by simp)
        · rw [hps] at h
          have hr2 : r2 <:+ r' := parseStrBody_suffix _ _ _ hps
          split at h
          · rename_i heqn
            exact absurd heqn (by simp)
          · rename_i k3 r3 heq
            injection heq with heq1
            injection heq1 with heq2 heq3
            subst heq2
            subst heq3
            split at h
            · rename_i r4 heq4
              have hr4 : (':' :: r4) <:+ r2 := heq4 ▸ skipWs_suffix r2
              rcases hpt : parseTok f (skipWs r4) with - | ⟨v', r5⟩
              · rw [hpt] at h
                exact absurd h (by simp)
              · rw [hpt] at h
                have hr5 : r5 <:+ r4 := (((ih f (by omega)).1) _ _ _ hpt).trans
                  (skipWs_suffix r4)
                have hr5s : r5 <:+ '"' :: r' :=
                  ((hr5.trans ((List.suffix_cons ':' r4).trans hr4)).trans hr2).trans
                    (List.suffix_cons '"' r')
                split at h
                · rename_i heqn
                  exact absurd heqn (by simp)
                · rename_i v3 r6 heq
                  injection heq with heq1
                  injection heq1 with heq2 heq3
                  subst heq2
                  subst heq3
                  split at h
                  · rename_i r7 heq7
                    simp only [Option.some.injEq, Prod.mk.injEq] at h
                    obtain ⟨-, h2⟩ := h
                    subst h2
                    have h1 : ('}' :: r7) <:+ r5 := heq7 ▸ skipWs_suffix r5
                    exact ((List.suffix_cons '}' r7).trans h1).trans hr5s
                  · rename_i r7 heq7
                    have h1 : (',' :: r7) <:+ r5 := heq7 ▸ skipWs_suffix r5
                    exact (((((ih f (by omega)).2.2 _ _ _ _ h).trans
                      (skipWs_suffix r7)).trans
                      (List.suffix_cons ',' r7)).trans h1).trans hr5s
                  · exact absurd h (by simp)
            · exact absurd h (by simp)
      · exact absurd h (by simp)


set_option maxHeartbeats 2000000 in
/-- The array-tail parser only produces arrays. -/
theorem parseArrRest_shape : ∀ fuel s acc v r,
    parseArrRest fuel s acc = some (v, r) → ∃ l, v = .arr l := by
  intro fuel
  induction fuel using Nat.strong_induction_on with
  | _ fuel ih =>
    intro s acc v r h
    rw [parseArrRest.eq_def] at h
    split at h
    · exact absurd h (by simp)
    · rename_i f
      rcases hpt : parseTok f (skipWs s) with - | ⟨v', r'⟩
      · rw [hpt] at h
        exact absurd h (by simp)
      · rw [hpt] at h
        split at h
        · rename_i heqn
          exact absurd heqn (by simp)
        · rename_i v2 r2 heq
          split at h
          · rename_i r3 heq3
            simp only [Option.some.injEq, Prod.mk.injEq] at h
            exact ⟨_, h.1.symm⟩
          · rename_i r3 heq3
            exact ih f (by omega) _ _ _ _ h
          · exact absurd h (by simp)

set_option maxHeartbeats 2000000 in
/-- A successful object-tail parse means a `}` occurs in the input. -/
theorem parseObjRest_rbrace : ∀ fuel s acc x,
    parseObjRest fuel s acc = some x → '}' ∈ s := by
  intro fuel
  induction fuel using Nat.strong_induction_on with
  | _ fuel ih =>
    intro s acc x h
    rw [parseObjRest.eq_def] at h
    split at h
    · exact absurd h (by simp)
    · rename_i f r'
      rcases hps : parseStrBody r' with - | ⟨k2, r2⟩
      · rw [hps] at h
        exact absurd h (by simp)
      · rw [hps] at h
        have hr2 : r2 <:+ r' := parseStrBody_suffix _ _ _ hps
        split at h
        · rename_i heqn
          exact absurd heqn (by simp)
        · rename_i k3 r3 heq
          injection heq with heq1
          injection heq1 with heq2 heq3
          subst heq2
          subst heq3
          split at h
          · rename_i r4 heq4
            have hr4 : (':' :: r4) <:+ r2 := heq4 ▸ skipWs_suffix r2
            rcases hpt : parseTok f (skipWs r4) with - | ⟨v', r5⟩
            · rw [hpt] at h
              exact absurd h (by simp)
            · rw [hpt] at h
              have hr5 : r5 <:+ r2 :=
                (((parsers_suffix f).1 _ _ _ hpt).trans (skipWs_suffix r4)).trans
                  ((List.suffix_cons ':' r4).trans hr4)
              split at h
              · rename_i heqn
                exact absurd heqn (by simp)
              · rename_i v3 r6 heq
                injection heq with heq1
                injection heq1 with heq2 heq3
                subst heq2
                subst heq3
                have finish : '}' ∈ r5 → '}' ∈ '"' :: r' := by
                  intro hm
                  exact List.mem_cons_of_mem _ (hr2.subset (hr5.subset hm))
                split at h
                · rename_i r7 heq7
                  refine finish ?_
                  have : '}' ∈ skipWs r5 := by
                    rw [heq7]
                    simp
                  exact (skipWs_suffix r5).subset this
                · rename_i r7 heq7
                  refine finish ?_
                  have hm7 : '}' ∈ skipWs r7 := ih f (by omega) _ _ _ h
                  have : '}' ∈ skipWs r5 := by
                    rw [heq7]
                    exact List.mem_cons_of_mem _ ((skipWs_suffix r7).subset hm7)
                  exact (skipWs_suffix r5).subset this
                · exact absurd h (by simp)
          · exact absurd h (by simp)
    · exact absurd h (by simp)

set_option maxHeartbeats 2000000 in
/-- Only a `{`-headed token with a later `}` parses to an object. -/
theorem parseTok_obj_shape : ∀ fuel s fl r,
    parseTok fuel s = some (.obj fl, r) → ∃ t, s = '{' :: t ∧ '}' ∈ t := by
  intro fuel s fl r h
  rw [parseTok.eq_def] at h
  split at h
  · exact absurd h (by simp)
  · rename_i f r'
    refine ⟨r', rfl, ?_⟩
    split at h
    · rename_i r2 heq
      have : '}' ∈ skipWs r' := by
        rw [heq]
        simp
      exact (skipWs_suffix r').subset this
    · have : '}' ∈ skipWs r' := parseObjRest_rbrace f _ _ _ h
      exact (skipWs_suffix r').subset this
  · rename_i f r'
    split at h
    · exact absurd h (by simp)
    · obtain ⟨l, hl⟩ := parseArrRest_shape f _ _ _ _ h
      exact absurd hl (by simp)
  · rename_i f r'
    obtain ⟨⟨k2, r2⟩, hpr, hkr⟩ := Option.map_eq_some'.mp h
    exact absurd hkr (by simp)
  · exact absurd h (by simp)
  · exact absurd h (by simp)
  · exact absurd h (by simp)
  · split at h
    · exact absurd h (by simp)
    · exact absurd h (by simp)
  · split at h
    · exact absurd h (by simp)
    · exact absurd h (by simp)

/-- A parsed top-level object implies a `{` … `}` pair in the input text. -/
theorem loads_obj_braces {s : List Char} {fl : List (List Char × Json)}
    (h : loads s = some (.obj fl)) :
    ∃ a mid b, s = a ++ '{' :: (mid ++ '}' :: b) := by
  unfold loads at h
  rcases hpv : parseVal (2 * s.length + 2) s with - | ⟨v, rest⟩
  · rw [hpv] at h
    exact absurd h (by simp)
  · rw [hpv] at h
    have hv : v = .obj fl := by
      by_cases hw : skipWs rest = []
      · simpa [hw] using h
      · simp [hw] at h
    subst hv
    have hts := parseTok_obj_shape _ _ _ _ hpv
    obtain ⟨t, hts1, hts2⟩ := hts
    obtain ⟨mid, b, hmb⟩ := List.append_of_mem hts2
    refine ⟨s.takeWhile isJsonWs, mid, b, ?_⟩
    have hsplit : s.takeWhile isJsonWs ++ skipWs s = s := by
      show s.takeWhile isJsonWs ++ s.dropWhile isJsonWs = s
      exact List.takeWhile_append_dropWhile _ _
    conv_lhs => rw [← hsplit]
    rw [hts1, hmb]

/-- Two-sided strip never invents characters: its result is an infix. -/
theorem genStrip_infixOf (p : Char → Bool) (s : List Char) : genStrip p s <:+: s := by
  have h1 : s.dropWhile p <:+ s := List.dropWhile_suffix p
  obtain ⟨t, ht⟩ : (s.dropWhile p).reverse.dropWhile p <:+ (s.dropWhile p).reverse :=
    List.dropWhile_suffix p
  have h3 : genStrip p s <+: s.dropWhile p := by
    refine ⟨t.reverse, ?_⟩
    have h4 := congrArg List.reverse ht
    simpa [genStrip] using h4
  exact h3.isInfix.trans h1.isInfix

/-- A Python slice of a string is an infix of it. -/
theorem pySlice_infixOf (s : List Char) (i j : Nat) : pySlice s i j <:+: s :=
  (show (s.drop i).take (j - i) <+: s.drop i from
    ⟨(s.drop i).drop (j - i), List.take_append_drop _ _⟩).isInfix.trans
    (s.drop_suffix i).isInfix

/-- The brace-pair slicing step of `_safe_json_extract`, factored out. -/
def sliceBrace (s1 : List Char) : List Char :=
  match pyFind '{' s1, pyRfind '}' s1 with
  | some i, some j => if i < j then pySlice s1 i (j + 1) else s1
  | _, _ => s1

theorem extractionSlice_eq_sliceBrace (txt : List Char) :
    extractionSlice txt =
      sliceBrace (if pyStartsWith "```".toList (pyStrip txt)
                  then pyStripChar '`' (pyStrip txt) else pyStrip txt) := rfl

theorem sliceBrace_infixOf (s1 : List Char) : sliceBrace s1 <:+: s1 := by
  unfold sliceBrace
  rcases hf : pyFind '{' s1 with - | i
  · simp
  · rcases hr : pyRfind '}' s1 with - | j
    · simp
    · show (if i < j then pySlice s1 i (j + 1) else s1) <:+: s1
      split
      · exact pySlice_infixOf _ _ _
      · exact List.infix_rfl

/-- The heuristic slice taken by `_safe_json_extract` is an infix of the
response text. -/
theorem extractionSlice_infixOf (txt : List Char) : extractionSlice txt <:+: txt := by
  rw [extractionSlice_eq_sliceBrace]
  have h0 : pyStrip txt <:+: txt := genStrip_infixOf isPyWs txt
  split
  · exact (sliceBrace_infixOf _).trans ((genStrip_infixOf _ _).trans h0)
  · exact (sliceBrace_infixOf _).trans h0

/-- The text contains no `{` that is later followed by a `}` — the shape on
which `json.loads` cannot possibly see a JSON object. -/
def NoBracePair (txt : List Char) : Prop :=
  ¬ ∃ a mid b, txt = a ++ '{' :: (mid ++ '}' :: b)

/-- A brace pair in an infix yields one in the whole string. -/
theorem bracePair_of_infixOf {u txt : List Char} (h : u <:+: txt)
    {a mid b : List Char} (hu : u = a ++ '{' :: (mid ++ '}' :: b)) :
    ∃ a2 mid2 b2, txt = a2 ++ '{' :: (mid2 ++ '}' :: b2) := by
  obtain ⟨pre, post, hpp⟩ := h
  exact ⟨pre ++ a, mid, b ++ post, by rw [← hpp, hu]; simp⟩

/-- If the response text has no `{`…`}` pair, `_safe_json_extract` cannot
return a dict (it raises, modelled as `none`, or returns a non-dict). -/
theorem safeJsonExtract_no_obj {txt : List Char} (h : NoBracePair txt)
    (fl : List (List Char × Json)) : safeJsonExtract txt ≠ some (.obj fl) := by
  intro hc
  obtain ⟨a, mid, b, hab⟩ := loads_obj_braces hc
  exact h (bracePair_of_infixOf (extractionSlice_infixOf txt) hab)

/-! ## Dictionary update facts -/

/-- Reading back the key just written with `d[k] = v`. -/
theorem pyLookup_pySetKey (k : List Char) (v : Json) :
    ∀ l, pyLookup k (pySetKey k v l) = some v
  | [] => by simp [pySetKey, pyLookup]
  | (k', v') :: r => by
    by_cases h : k' = k
    · simp [pySetKey, h, pyLookup]
    · simp [pySetKey, h, pyLookup, pyLookup_pySetKey k v r]

/-- Reading back the key just written in the assistants map. -/
theorem pyMapLookup_pySetMap (k : Json) (v : AgentRec) :
    ∀ m, pyMapLookup k (pySetMap k v m) = some v
  | [] => by simp [pySetMap, pyMapLookup]
  | (k', v') :: r => by
    by_cases h : k' = k
    · simp [pySetMap, h, pyMapLookup]
    · simp [pySetMap, h, pyMapLookup, pyMapLookup_pySetMap k v r]

/-! ## Lexicographic order facts -/

theorem charToNat_inj {a b : Char} (h : a.toNat = b.toNat) : a = b := by
  have ha := Char.ofNat_toNat a
  have hb := Char.ofNat_toNat b
  rw [← ha, ← hb, h]

theorem lexLe_refl : ∀ a, lexLe a a = true
  | [] => rfl
  | _ :: r => by simp [lexLe, lexLe_refl r]

theorem lexLe_total : ∀ a b, lexLe a b = true ∨ lexLe b a = true
  | [], _ => Or.inl rfl
  | _ :: _, [] => Or.inr rfl
  | a :: as, b :: bs => by
    by_cases hab : a = b
    · subst hab
      simpa [lexLe] using lexLe_total as bs
    · have hba : ¬ b = a := fun h => hab h.symm
      have hne : a.toNat ≠ b.toNat := fun h => hab (charToNat_inj h)
      simp [lexLe, hab, hba]
      omega

theorem lexLe_trans : ∀ a b c, lexLe a b = true → lexLe b c = true → lexLe a c = true
  | [], _, _, _, _ => rfl
  | _ :: _, [], _, h1, _ => by simp [lexLe] at h1
  | _ :: _, _ :: _, [], _, h2 => by simp [lexLe] at h2
  | a :: as, b :: bs, c :: cs, h1, h2 => by
    by_cases hab : a = b <;> by_cases hbc : b = c
    · subst hab; subst hbc
      simp only [lexLe, if_pos rfl] at h1 h2 ⊢
      exact lexLe_trans as bs cs h1 h2
    · subst hab
      simp only [lexLe, if_pos rfl] at h1
      simp only [lexLe, if_neg hbc, decide_eq_true_eq] at h2 ⊢
      exact h2
    · subst hbc
      simp only [lexLe, if_pos rfl] at h2
      simpa [lexLe, hab] using h1
    · simp only [lexLe, if_neg hab, decide_eq_true_eq] at h1
      simp only [lexLe, if_neg hbc, decide_eq_true_eq] at h2
      have hac : ¬ a = c := by
        intro h
        subst h
        omega
      simp only [lexLe, if_neg hac, decide_eq_true_eq]
      omega

/-! ## Sorting facts for the feedback retriever -/

instance : DecidableEq CallDict := decEqJsonFields

theorem mem_insertDesc (x y : CallDict) :
    ∀ l, (y ∈ insertDesc x l ↔ y = x ∨ y ∈ l)
  | [] => by simp [insertDesc]
  | z :: zs => by
    by_cases h : lexLe (sortKeyStr z) (sortKeyStr x) = true
    · simp [insertDesc, h]
    · simp only [insertDesc, if_neg h, List.mem_cons, mem_insertDesc x y zs]
      tauto

theorem mem_sortDesc (y : CallDict) : ∀ l, y ∈ sortDesc l ↔ y ∈ l
  | [] => Iff.rfl
  | x :: xs => by
    show y ∈ insertDesc x (sortDesc xs) ↔ _
    rw [mem_insertDesc x y (sortDesc xs), mem_sortDesc y xs]
    simp

theorem sortDesc_head_max :
    ∀ (l : List CallDict) (c : CallDict) (rest : List CallDict),
      sortDesc l = c :: rest →
      ∀ d ∈ l, lexLe (sortKeyStr d) (sortKeyStr c) = true := by
  intro l
  induction l with
  | nil => intro c rest h; cases h
  | cons x xs ih =>
    intro c rest h d hd
    have hx : sortDesc (x :: xs) = insertDesc x (sortDesc xs) := rfl
    rw [hx] at h
    rcases hs : sortDesc xs with - | ⟨y, ys⟩
    · rw [hs] at h
      simp only [insertDesc] at h
      injection h with h1 h2
      subst h1
      rcases List.mem_cons.mp hd with rfl | hd'
      · exact lexLe_refl _
      · exact absurd ((mem_sortDesc d xs).mpr hd') (by rw [hs]; simp)
    · rw [hs] at h
      by_cases hk : lexLe (sortKeyStr y) (sortKeyStr x) = true
      · simp only [insertDesc, if_pos hk] at h
        injection h with h1 h2
        subst h1
        rcases List.mem_cons.mp hd with rfl | hd'
        · exact lexLe_refl _
        · exact lexLe_trans _ _ _ (ih y ys hs d hd') hk
      · simp only [insertDesc, if_neg hk] at h
        injection h with h1 h2
        subst h1
        rcases List.mem_cons.mp hd with rfl | hd'
        · rcases lexLe_total (sortKeyStr d) (sortKeyStr y) with h' | h'
          · exact h'
          · exact absurd h' hk
        · exact ih y ys hs d hd'

/-- The shapes `startedAt` takes in the CallRecord data model. -/
def timestampLike : Json → Bool
  | .null => true
  | .str _ => true
  | _ => false

/-- Under the data model, `after_start` is exactly the lexicographic
threshold test on a non-empty `startedAt` string. -/
theorem after_start_char {t : List Char} {c : CallDict}
    (h : timestampLike (cGet c "startedAt".toList) = true) :
    (after_start t c = true ↔
      ∃ sv, cGet c "startedAt".toList = .str sv ∧ sv ≠ [] ∧ lexLe t sv = true) := by
  rcases hg : cGet c "startedAt".toList with - | b | n | sv | l | f <;>
    rw [hg] at h <;> simp [timestampLike] at h
  · simp only [after_start]
    rw [hg]
    simp [truthy]
  · simp only [after_start]
    rw [hg]
    by_cases hsv : sv = []
    · subst hsv
      simp [truthy]
    · simp [truthy, hsv]

/-! ## Feedback-row facts -/

theorem feedbackRows_filterMap (sf : List (List Char × Json)) :
    feedbackRows sf = fieldOrder.filterMap (fun k =>
      (pyLookup k sf).bind
        (fun v => if truthy v then some (displayName k, v) else none)) := by
  have gen : ∀ (ks : List (List Char)) (acc : List (List Char × Json)),
      ks.foldl (fun rows k =>
        match pyLookup k sf with
        | some v => if truthy v then rows ++ [(displayName k, v)] else rows
        | none => rows) acc =
      acc ++ ks.filterMap (fun k =>
        (pyLookup k sf).bind
          (fun v => if truthy v then some (displayName k, v) else none)) := by
    intro ks
    induction ks with
    | nil => intro acc; simp
    | cons k ks ih =>
      intro acc
      rcases hk : pyLookup k sf with - | v
      · simp [List.foldl_cons, List.filterMap_cons, hk, ih]
      · by_cases hv : truthy v = true
        · simp [List.foldl_cons, List.filterMap_cons, hk, hv, ih]
        · simp [List.foldl_cons, List.filterMap_cons, hk, hv, ih]
  simpa [feedbackRows] using gen fieldOrder []

theorem feedbackRows_nil_iff (sf : List (List Char × Json)) :
    (feedbackRows sf = [] ↔
      ∀ k ∈ fieldOrder, ∀ v, pyLookup k sf = some v → truthy v = false) := by
  rw [feedbackRows_filterMap, List.filterMap_eq_nil_iff]
  constructor
  · intro h k hk v hv
    by_cases ht : truthy v = true
    · have h2 := h k hk
      rw [hv] at h2
      simp [ht] at h2
    · simpa using ht
  · intro h k hk
    rcases hv : pyLookup k sf with - | v
    · rfl
    · have h2 := h k hk v hv
      simp [h2]

/-- The rendered prompt always starts with the fixed template text, so it is
never empty. -/
theorem renderPrompt_ne_nil (n r i : List Char) : renderPrompt n r i ≠ [] := by
  unfold renderPrompt
  intro h
  rcases List.append_eq_nil.mp h with ⟨-, h4⟩
  exact absurd h4 (by decide)

/-- A text without `{` trivially has no brace pair. -/
theorem noBracePair_of_no_lbrace {txt : List Char} (h : '{' ∉ txt) :
    NoBracePair txt := by
  rintro ⟨a, mid, b, rfl⟩
  exact h (by simp)

/-! ## The claims -/

/-- C1: for every JSON object and every wrapping of its serialization with
non-brace prose prefixes/suffixes (backtick code fences included, backticks
being non-brace characters), `_safe_json_extract` applied to the wrapped text
returns exactly that object. -/
theorem claim_C1_extraction_roundtrip (fields : List (List Char × Json))
    (P S : List Char) (hwf : jwf (.obj fields) = true)
    (hP : ∀ c ∈ P, c ≠ '{' ∧ c ≠ '}') (hS : ∀ c ∈ S, c ≠ '{' ∧ c ≠ '}') :
    safeJsonExtract (P ++ dumps (.obj fields) ++ S) = some (.obj fields) := by
  unfold safeJsonExtract
  rw [extractionSlice_wrapped fields P S hP hS]
  exact loads_dumps hwf

theorem claim_C1_witness :
    safeJsonExtract ("```json\nHere is the record: ".toList ++
        dumps (.obj [("roll_no".toList, .str "R1".toList)]) ++ "\n``` done".toList) =
      some (.obj [("roll_no".toList, .str "R1".toList)]) :=
  claim_C1_extraction_roundtrip _ _ _ (by decide) (by decide) (by decide)

/-- C2 (corrected: the response text must additionally be non-empty): if a
non-empty upstream response contains no brace pair, or its extraction slice is
not valid JSON, the extraction fails (`None` record) and the handler leaves the
session state unchanged. -/
theorem claim_C2_failure_atomicity (st : AppState) (respText reg : List Char)
    (hne : respText ≠ [])
    (h : NoBracePair respText ∨ loads (extractionSlice respText) = none) :
    gemini_extract_candidate_json respText reg = none ∧
      extractStep st respText reg = st := by
  have hg : gemini_extract_candidate_json respText reg = none := by
    simp only [gemini_extract_candidate_json, if_neg hne]
    rcases h with h | h
    · rcases hs : safeJsonExtract respText with - | v
      · rfl
      · rcases v with - | b | n | s | l | fl
        · rfl
        · rfl
        · rfl
        · rfl
        · rfl
        · exact absurd hs (safeJsonExtract_no_obj h fl)
    · have hs : safeJsonExtract respText = none := h
      rw [hs]
  refine ⟨hg, ?_⟩
  unfold extractStep
  rw [hg]

theorem claim_C2_witness :
    gemini_extract_candidate_json "no json here".toList "R".toList = none ∧
      extractStep ⟨none, [], none⟩ "no json here".toList "R".toList =
        ⟨none, [], none⟩ :=
  claim_C2_failure_atomicity ⟨none, [], none⟩ _ _ (by decide)
    (Or.inl (noBracePair_of_no_lbrace (by decide)))

/-- C2 counterexample to the original claim: the empty response text contains
no brace pair, yet the handler stores a fresh candidate record, because the
code substitutes the literal two-character object text for an empty
`resp.text` before extracting. -/
theorem claim_C2_counterexample :
    NoBracePair [] ∧
      (extractStep ⟨none, [], none⟩ [] "R1".toList).candidate_json =
        some (.obj [("roll_no".toList, .str "R1".toList)]) := by
  constructor
  · rintro ⟨a, mid, b, h⟩
    simp at h
  · decide

/-- C3: on a successfully parsed extraction result, the returned record is the
parsed object after the roll-number fallback: a missing or falsy `roll_no`
is replaced by the supplied registration number, while a truthy upstream
`roll_no` leaves the record untouched. -/
theorem claim_C3_roll_fallback (respText reg : List Char)
    (fields : List (List Char × Json))
    (hs : safeJsonExtract (if respText = [] then "\x7b\x7d".toList else respText) =
      some (.obj fields)) :
    gemini_extract_candidate_json respText reg =
      some (.obj (rollNoFallback fields reg)) ∧
    (truthy (pyGetD fields "roll_no".toList .null) = false →
      pyLookup "roll_no".toList (rollNoFallback fields reg) = some (.str reg)) ∧
    (truthy (pyGetD fields "roll_no".toList .null) = true →
      rollNoFallback fields reg = fields) := by
  refine ⟨?_, ?_, ?_⟩
  · simp only [gemini_extract_candidate_json]
    rw [hs]
  · intro ht
    unfold rollNoFallback
    rw [ht]
    simp only [Bool.false_eq_true, if_false]
    exact pyLookup_pySetKey _ _ _
  · intro ht
    unfold rollNoFallback
    rw [ht]
    simp

theorem claim_C3_witness :
    gemini_extract_candidate_json (dumps (.obj [("name".toList, .str "A".toList)]))
        "X07".toList =
      some (.obj (rollNoFallback [("name".toList, .str "A".toList)] "X07".toList)) ∧
    (truthy (pyGetD [("name".toList, .str "A".toList)] "roll_no".toList .null) = false →
      pyLookup "roll_no".toList
          (rollNoFallback [("name".toList, .str "A".toList)] "X07".toList) =
        some (.str "X07".toList)) ∧
    (truthy (pyGetD [("name".toList, .str "A".toList)] "roll_no".toList .null) = true →
      rollNoFallback [("name".toList, .str "A".toList)] "X07".toList =
        [("name".toList, .str "A".toList)]) :=
  claim_C3_roll_fallback (dumps (.obj [("name".toList, .str "A".toList)]))
    "X07".toList [("name".toList, .str "A".toList)] (by decide)

/-- C8: applying a hand-edited candidate JSON replaces the stored record
wholesale when the text parses, and on a parse failure reports the error and
leaves the stored record untouched. -/
theorem claim_C8_apply_edited (st : AppState) (txt : List Char) :
    (∀ v, loads txt = some v →
      applyEditedStep st txt = ({ st with candidate_json := some v }, false)) ∧
    (loads txt = none → applyEditedStep st txt = (st, true)) := by
  constructor
  · intro v hv
    unfold applyEditedStep
    rw [hv]
  · intro hv
    unfold applyEditedStep
    rw [hv]

theorem claim_C8_witness :
    applyEditedStep ⟨none, [], none⟩ "3".toList = (⟨some (.int 3), [], none⟩, false) ∧
    applyEditedStep ⟨none, [], none⟩ "oops".toList = (⟨none, [], none⟩, true) :=
  ⟨(claim_C8_apply_edited ⟨none, [], none⟩ "3".toList).1 (.int 3) (by decide),
   (claim_C8_apply_edited ⟨none, [], none⟩ "oops".toList).2 (by decide)⟩

theorem renderPrompt_parts (n r i : List Char) :
    n <:+: renderPrompt n r i ∧ r <:+: renderPrompt n r i ∧
      i <:+: renderPrompt n r i := by
  unfold renderPrompt
  refine ⟨⟨promptPart1, promptPart2 ++ r ++ promptPart3 ++ i ++ promptPart4, by simp⟩,
    ⟨promptPart1 ++ n ++ promptPart2, promptPart3 ++ i ++ promptPart4, by simp⟩,
    ⟨promptPart1 ++ n ++ promptPart2 ++ r ++ promptPart3, promptPart4, by simp⟩⟩

/-- C4: prompt composition on a candidate record (any dict, the empty one
included) always succeeds with a non-empty prompt containing the candidate's
name (the literal default when absent), the roll number, and the
JSON-serialized record verbatim. -/
theorem claim_C4_prompt_total (f : List (List Char × Json)) (reg : List Char) :
    ∃ p, composePrompt (some (.obj f)) reg = some p ∧ p ≠ [] ∧
      pyStrJ (pyGetD f "name".toList (.str "Candidate".toList)) <:+: p ∧
      pyStrJ (pyGetD f "roll_no".toList (.str reg)) <:+: p ∧
      dumpsInd 0 (.obj f) <:+: p := by
  by_cases ht : truthy (.obj f) = true
  · refine ⟨renderPrompt (pyStrJ (pyGetD f "name".toList (.str "Candidate".toList)))
      (pyStrJ (pyGetD f "roll_no".toList (.str reg))) (dumpsInd 0 (.obj f)),
      ?_, renderPrompt_ne_nil _ _ _,
      (renderPrompt_parts _ _ _).1, (renderPrompt_parts _ _ _).2.1,
      (renderPrompt_parts _ _ _).2.2⟩
    have hseed : prompt_seed (some (.obj f)) reg =
        some (pyStrJ (pyGetD f "name".toList (.str "Candidate".toList)),
          pyStrJ (pyGetD f "roll_no".toList (.str reg)), dumpsInd 0 (.obj f)) := by
      simp [prompt_seed, ht]
    unfold composePrompt
    rw [hseed]
    rfl
  · have hf : f = [] := by
      simp [truthy] at ht
      exact ht
    subst hf
    refine ⟨renderPrompt "Candidate".toList reg (dumpsInd 0 (.obj [])),
      ?_, renderPrompt_ne_nil _ _ _,
      (renderPrompt_parts _ _ _).1, (renderPrompt_parts _ _ _).2.1,
      (renderPrompt_parts _ _ _).2.2⟩
    rfl

/-- C5: the provisioner returns the platform `id` field on HTTP status < 300
(given a response body that parses as a JSON object); on status ≥ 300 it
raises an error carrying the status code and the raw body, and the handler
leaves the session state unchanged. -/
theorem claim_C5_provisioner (st : AppState) (reg : List Char) (r : HttpResp) :
    (300 ≤ r.status →
      (∃ msg, create_vapi_assistant r = .error msg ∧
        natToChars r.status <:+: msg ∧ r.text <:+: msg) ∧
      create_btn_step st reg r = st) ∧
    (r.status < 300 → ∀ f, loads r.text = some (.obj f) →
      create_vapi_assistant r = .ok (pyLookup "id".toList f)) := by
  constructor
  · intro h
    have herr : create_vapi_assistant r =
        .error ("Assistant create failed: ".toList ++ natToChars r.status ++
          ' ' :: r.text) := by
      unfold create_vapi_assistant
      rw [if_pos h]
    constructor
    · exact ⟨_, herr,
        ⟨"Assistant create failed: ".toList, ' ' :: r.text, by simp⟩,
        ⟨"Assistant create failed: ".toList ++ natToChars r.status ++ [' '], [],
          by simp⟩⟩
    · unfold create_btn_step
      rcases rnOf st.candidate_json reg with - | rn
      · rfl
      · rw [herr]
  · intro h f hf
    unfold create_vapi_assistant
    rw [if_neg (by omega), hf]

theorem claim_C5_witness :
    ((∃ msg, create_vapi_assistant ⟨404, "oops".toList⟩ = .error msg ∧
        natToChars 404 <:+: msg ∧ "oops".toList <:+: msg) ∧
      create_btn_step ⟨none, [], none⟩ "R".toList ⟨404, "oops".toList⟩ =
        ⟨none, [], none⟩) ∧
    create_vapi_assistant ⟨200, dumps (.obj [("id".toList, .str "a1".toList)])⟩ =
      .ok (some (.str "a1".toList)) := by
  constructor
  · exact (claim_C5_provisioner ⟨none, [], none⟩ "R".toList
      ⟨404, "oops".toList⟩).1 (by decide)
  · exact (claim_C5_provisioner ⟨none, [], none⟩ "R".toList
      ⟨200, dumps (.obj [("id".toList, .str "a1".toList)])⟩).2 (by decide)
      [("id".toList, .str "a1".toList)] (by decide)

/-- C9 (implicit): a successful creation call whose response JSON lacks an
`id` field does not fail — the provisioner returns an absent identifier and
the handler stores it as the `assistant_id` of the AgentRec for the roll
number. -/
theorem claim_C9_missing_id (st : AppState) (reg : List Char) (r : HttpResp)
    (hst : r.status < 300) (f : List (List Char × Json))
    (hj : loads r.text = some (.obj f)) (hid : pyLookup "id".toList f = none)
    (rn nm : Json) (hrn : rnOf st.candidate_json reg = some rn)
    (hnm : agentName st.candidate_json = some nm) :
    create_vapi_assistant r = .ok none ∧
    pyMapLookup rn (create_btn_step st reg r).assistants =
      some ⟨none, candStored st.candidate_json, nm⟩ := by
  have hok : create_vapi_assistant r = .ok none := by
    unfold create_vapi_assistant
    rw [if_neg (by omega), hj]
    show Except.ok (pyLookup "id".toList f) = Except.ok none
    rw [hid]
  refine ⟨hok, ?_⟩
  unfold create_btn_step
  rw [hrn, hok, hnm]
  exact pyMapLookup_pySetMap rn ⟨none, candStored st.candidate_json, nm⟩ st.assistants

theorem claim_C9_witness :
    create_vapi_assistant ⟨200, dumps (.obj [("ok".toList, .bool true)])⟩ =
      .ok none ∧
    pyMapLookup (.str "R7".toList)
        (create_btn_step ⟨some (.obj [("roll_no".toList, .str "R7".toList)]), [], none⟩
          "X".toList ⟨200, dumps (.obj [("ok".toList, .bool true)])⟩).assistants =
      some ⟨none, candStored (some (.obj [("roll_no".toList, .str "R7".toList)])),
        .str "Candidate".toList⟩ :=
  claim_C9_missing_id ⟨some (.obj [("roll_no".toList, .str "R7".toList)]), [], none⟩
    "X".toList ⟨200, dumps (.obj [("ok".toList, .bool true)])⟩ (by decide)
    [("ok".toList, .bool true)] (by decide) (by decide)
    (.str "R7".toList) (.str "Candidate".toList) (by decide) (by decide)

/-- C6: the retriever keeps exactly the calls for the target agent whose
non-empty `startedAt` string is lexicographically ≥ the threshold; among the
survivors it returns one maximal under the `endedAt`/`updatedAt`/`createdAt`
fallback key; an empty survivor set yields the empty "no call yet" result. -/
theorem claim_C6_latest_call (items : List CallDict) (A : Json) (t : List Char)
    (hwf : ∀ c ∈ items, timestampLike (cGet c "startedAt".toList) = true) :
    (∀ c, c ∈ latestFiltered items A t ↔
      c ∈ items ∧ pyEqJ (cGet c "assistantId".toList) A = true ∧
        ∃ sv, cGet c "startedAt".toList = .str sv ∧ sv ≠ [] ∧
          lexLe t sv = true) ∧
    (latestFiltered items A t = [] → get_latest_call items A t = none) ∧
    (∀ c, get_latest_call items A t = some c →
      c ∈ latestFiltered items A t ∧
        ∀ d ∈ latestFiltered items A t,
          lexLe (sortKeyStr d) (sortKeyStr c) = true) := by
  refine ⟨?_, ?_, ?_⟩
  · intro c
    unfold latestFiltered
    rw [List.mem_filter]
    constructor
    · rintro ⟨hmem, hp⟩
      rw [Bool.and_eq_true] at hp
      exact ⟨hmem, hp.1, (after_start_char (hwf c hmem)).mp hp.2⟩
    · rintro ⟨hmem, h1, h2⟩
      refine ⟨hmem, ?_⟩
      rw [Bool.and_eq_true]
      exact ⟨h1, (after_start_char (hwf c hmem)).mpr h2⟩
  · intro h
    unfold get_latest_call
    rw [h]
    rfl
  · intro c hc
    unfold get_latest_call at hc
    rcases hsd : sortDesc (latestFiltered items A t) with - | ⟨c', rest⟩ <;>
      rw [hsd] at hc
    · cases hc
    · have hc2 : some c' = some c := hc
      injection hc2 with he
      constructor
      · refine (mem_sortDesc _ _).mp ?_
        rw [hsd, ← he]
        simp
      · intro d hd
        rw [← he]
        exact sortDesc_head_max _ _ _ hsd d hd

theorem claim_C6_witness :
    [("assistantId".toList, .str "a1".toList),
     ("startedAt".toList, .str "2024-01-03".toList),
     ("endedAt".toList, .str "2024-01-03".toList)] ∈
      latestFiltered
        [[("assistantId".toList, .str "a1".toList),
          ("startedAt".toList, .str "2024-01-02".toList),
          ("endedAt".toList, .str "2024-01-02".toList)],
         [("assistantId".toList, .str "a1".toList),
          ("startedAt".toList, .str "2024-01-03".toList),
          ("endedAt".toList, .str "2024-01-03".toList)]]
        (.str "a1".toList) "2024".toList ∧
    lexLe
      (sortKeyStr [("assistantId".toList, .str "a1".toList),
        ("startedAt".toList, .str "2024-01-02".toList),
        ("endedAt".toList, .str "2024-01-02".toList)])
      (sortKeyStr [("assistantId".toList, .str "a1".toList),
        ("startedAt".toList, .str "2024-01-03".toList),
        ("endedAt".toList, .str "2024-01-03".toList)]) = true := by
  have h := (claim_C6_latest_call
    [[("assistantId".toList, .str "a1".toList),
      ("startedAt".toList, .str "2024-01-02".toList),
      ("endedAt".toList, .str "2024-01-02".toList)],
     [("assistantId".toList, .str "a1".toList),
      ("startedAt".toList, .str "2024-01-03".toList),
      ("endedAt".toList, .str "2024-01-03".toList)]]
    (.str "a1".toList) "2024".toList (by decide)).2.2
    [("assistantId".toList, .str "a1".toList),
     ("startedAt".toList, .str "2024-01-03".toList),
     ("endedAt".toList, .str "2024-01-03".toList)] (by decide)
  exact ⟨h.1, h.2 _ (by decide)⟩

/-- C7: on a call whose `analysis.structuredData` unwraps to the dict `sf`,
the feedback table is one (label, text) row per present truthy field of the
twelve, in the fixed display order, and collapses to the single
"analysis in progress" placeholder exactly when every field is missing or
falsy. -/
theorem claim_C7_feedback_rows (cf af sf : List (List Char × Json))
    (ha : pyGetD cf "analysis".toList .null = .obj af)
    (hs : pyGetD af "structuredData".toList .null = .obj sf) :
    flatten_feedback_for_table (.obj cf) =
      some (if feedbackRows sf = [] then [statusRow] else feedbackRows sf) ∧
    feedbackRows sf = fieldOrder.filterMap (fun k =>
      (pyLookup k sf).bind
        (fun v => if truthy v then some (displayName k, v) else none)) ∧
    (feedbackRows sf = [] ↔
      ∀ k ∈ fieldOrder, ∀ v, pyLookup k sf = some v → truthy v = false) := by
  refine ⟨?_, feedbackRows_filterMap sf, feedbackRows_nil_iff sf⟩
  have hobj1 : (if truthy (pyGetD cf "analysis".toList .null)
      then pyGetD cf "analysis".toList .null else .obj []) = .obj af := by
    rw [ha]
    by_cases h : truthy (.obj af) = true
    · rw [if_pos h]
    · rw [if_neg h]
      simp [truthy] at h
      rw [h]
  have hobj2 : (if truthy (pyGetD af "structuredData".toList .null)
      then pyGetD af "structuredData".toList .null else .obj []) = .obj sf := by
    rw [hs]
    by_cases h : truthy (.obj sf) = true
    · rw [if_pos h]
    · rw [if_neg h]
      simp [truthy] at h
      rw [h]
  simp only [flatten_feedback_for_table]
  split
  · rename_i af' heq
    rw [hobj1] at heq
    injection heq with h1
    subst h1
    split
    · rename_i sf' heq2
      rw [hobj2] at heq2
      injection heq2 with h2
      subst h2
      rfl
    · rename_i hne2
      exact (hne2 sf hobj2).elim
  · rename_i hne1
    exact (hne1 af hobj1).elim

theorem claim_C7_witness :
    flatten_feedback_for_table
        (.obj [("analysis".toList,
          .obj [("structuredData".toList,
            .obj [("strengths".toList, .str "Good".toList)])])]) =
      some (if feedbackRows [("strengths".toList, .str "Good".toList)] = []
        then [statusRow]
        else feedbackRows [("strengths".toList, .str "Good".toList)]) :=
  (claim_C7_feedback_rows
    [("analysis".toList,
      .obj [("structuredData".toList,
        .obj [("strengths".toList, .str "Good".toList)])])]
    [("structuredData".toList, .obj [("strengths".toList, .str "Good".toList)])]
    [("strengths".toList, .str "Good".toList)] (by decide) (by decide)).1

/-- C10 (implicit): a call whose `startedAt` is absent, null, or the empty
string always fails the retention test, is never retained, and can never be
returned as the latest call, whatever the threshold and agent. -/
theorem claim_C10_absent_excluded (t : List Char) (c : CallDict)
    (h : cGet c "startedAt".toList = .null ∨ cGet c "startedAt".toList = .str [])
    (items : List CallDict) (A : Json) :
    after_start t c = false ∧ c ∉ latestFiltered items A t ∧
      get_latest_call items A t ≠ some c := by
  have hf : after_start t c = false := by
    simp only [after_start]
    rcases h with h | h <;> rw [h] <;> rfl
  have hmem : c ∉ latestFiltered items A t := by
    intro hc
    unfold latestFiltered at hc
    rw [List.mem_filter] at hc
    simp [hf] at hc
  refine ⟨hf, hmem, ?_⟩
  intro hc
  unfold get_latest_call at hc
  rcases hsd : sortDesc (latestFiltered items A t) with - | ⟨c', rest⟩ <;>
    rw [hsd] at hc
  · cases hc
  · have hc2 : some c' = some c := hc
    injection hc2 with he
    refine hmem ((mem_sortDesc _ _).mp ?_)
    rw [hsd, ← he]
    simp

theorem claim_C10_witness :
    after_start [] [("assistantId".toList, .str "a1".toList)] = false ∧
    [("assistantId".toList, .str "a1".toList)] ∉
      latestFiltered [[("assistantId".toList, .str "a1".toList)]]
        (.str "a1".toList) [] ∧
    get_latest_call [[("assistantId".toList, .str "a1".toList)]]
        (.str "a1".toList) [] ≠
      some [("assistantId".toList, .str "a1".toList)] :=
  claim_C10_absent_excluded [] [("assistantId".toList, .str "a1".toList)]
    (Or.inl (by decide)) [[("assistantId".toList, .str "a1".toList)]]
    (.str "a1".toList)

end App
